import Mathlib

/-!
Verification of the foundation-reconciliation engine of the
Player-Eligibility-Flask repository.

The Lean definitions below are shallow embeddings of the Python functions in
`processing_utils.py` and `sports_clubs.py`.  Strings are modelled as
`List Char` with ASCII semantics for the character-class predicates
(`\w`, `\s`, `str.upper`, `str.lower`); monetary `Decimal` values are modelled
as `ℚ` (Python `Decimal` arithmetic on the amounts handled here is exact);
spreadsheet cells are a small inductive `Cell` type mirroring the cell values
the code actually reads and writes (None, NaN, strings, numbers, dates).
-/

namespace PEF

/-- The ASCII Python whitespace characters (`str.strip` / regex `\s`). -/
def isPySpace (c : Char) : Bool :=
  c = ' ' || c = '\t' || c = '\n' || c = '\r' || c = '\x0b' || c = '\x0c'

/-- ASCII decimal digit. -/
def isDigitChar (c : Char) : Bool :=
  48 ≤ c.toNat && c.toNat ≤ 57

/-- ASCII model of Python `str.lower` on one character. -/
def pyLowerChar (c : Char) : Char :=
  if 65 ≤ c.toNat && c.toNat ≤ 90 then Char.ofNat (c.toNat + 32) else c

/-- ASCII model of Python `str.upper` on one character. -/
def pyUpperChar (c : Char) : Char :=
  if 97 ≤ c.toNat && c.toNat ≤ 122 then Char.ofNat (c.toNat - 32) else c

/-- Python `str.strip()`: drop leading and trailing whitespace. -/
def pyStrip (s : List Char) : List Char :=
  (((s.dropWhile isPySpace).reverse).dropWhile isPySpace).reverse

/-- Value of a list of ASCII digit characters read left to right. -/
def digitsVal (s : List Char) : Nat :=
  s.foldl (fun a c => 10 * a + (c.toNat - 48)) 0

/-- A nonempty all-digit run, as accepted by Python `int` after the sign. -/
def pyParseDigits (s : List Char) : Option Nat :=
  if s ≠ [] ∧ s.all isDigitChar then some (digitsVal s) else none

/-- Model of Python `int(...)` on an already-stripped string: an optional
sign followed by a nonempty run of decimal digits. -/
def pyParseInt (s : List Char) : Option Int :=
  match s with
  | [] => none
  | c :: rest =>
    if c = '-' then
      match pyParseDigits rest with
      | some n => some (-(n : Int))
      | none => none
    else if c = '+' then
      match pyParseDigits rest with
      | some n => some ((n : Int))
      | none => none
    else
      match pyParseDigits (c :: rest) with
      | some n => some ((n : Int))
      | none => none

/-- Decimal digit string of a natural number, as printed by Python `str`. -/
def pyNatStr (n : Nat) : List Char :=
  if n = 0 then ['0'] else ((Nat.digits 10 n).map Nat.digitChar).reverse

/-- Python `str` of an `int`. -/
def pyIntStr (i : Int) : List Char :=
  if i < 0 then '-' :: pyNatStr i.natAbs else pyNatStr i.natAbs

/-- `normalize_jrnl_ref` (processing_utils.py lines 74-81): strip, then
convert numeric strings to `int` and back (dropping leading zeros), and
upper-case everything else. -/
def normalize_jrnl_ref (ref : List Char) : List Char :=
  let t := pyStrip ref
  match pyParseInt t with
  | some i => pyIntStr i
  | none => t.map pyUpperChar

/-! ### Dates and spreadsheet cells -/

/-- A calendar date as used by `datetime.date`: compared lexicographically by
(year, month, day). -/
structure PDate where
  y : Nat
  m : Nat
  d : Nat
deriving DecidableEq

/-- `datetime.date` ordering: `a <= b` lexicographically. -/
def dateLe (a b : PDate) : Bool :=
  a.y < b.y ∨ (a.y = b.y ∧ (a.m < b.m ∨ (a.m = b.m ∧ a.d ≤ b.d)))

/-- A spreadsheet cell value as read or written by the code: `None`, float
NaN, a string, a number, or a date. -/
inductive Cell where
  | null
  | nan
  | str (s : List Char)
  | num (q : ℚ)
  | dateV (d : PDate)
deriving DecidableEq

/-! ### `to_decimal` (processing_utils.py lines 62-71) -/

/-- The cleaning step of `to_decimal`: drop thousands separators, turn `(`
into a leading minus and drop `)`. -/
def cleanAmount (s : List Char) : List Char :=
  ((s.filter (fun c => c ≠ ',')).map (fun c => if c = '(' then '-' else c)).filter
    (fun c => c ≠ ')')

/-- `\d+(\.\d+)?` decomposed into integer-part value, fraction value and
fraction length. -/
def parseUnsignedParts (s : List Char) : Option (Nat × Nat × Nat) :=
  match s.splitOn '.' with
  | [ip] => if ip ≠ [] ∧ ip.all isDigitChar then some (digitsVal ip, 0, 0) else none
  | [ip, fp] =>
    if ip ≠ [] ∧ ip.all isDigitChar ∧ fp ≠ [] ∧ fp.all isDigitChar then
      some (digitsVal ip, digitsVal fp, fp.length)
    else none
  | _ => none

/-- `-?\d+(\.\d+)?` anchored on both sides: an optional leading minus and
the unsigned decomposition. -/
def parseAmountParts (t : List Char) : Option (Bool × Nat × Nat × Nat) :=
  match t with
  | [] => none
  | c :: r =>
    if c = '-' then (parseUnsignedParts r).map (fun p => (true, p))
    else (parseUnsignedParts (c :: r)).map (fun p => (false, p))

/-- `$` in a Python regex also matches just before one trailing newline. -/
def reDollarTrim (s : List Char) : List Char :=
  if s.getLast? = some '\n' then s.dropLast else s

/-- The exact decimal value of a matched amount. -/
def partsVal (p : Bool × Nat × Nat × Nat) : ℚ :=
  (if p.1 then -1 else 1) * ((p.2.1 : ℚ) + (p.2.2.1 : ℚ) / (10 : ℚ) ^ p.2.2.2)

/-- The regex test and `Decimal(...)` conversion of `to_decimal` combined:
`re.match(r'^-?\d+(\.\d+)?$', cleaned)` and the matched text's exact value. -/
def parseAmount (s : List Char) : Option ℚ :=
  (parseAmountParts (reDollarTrim (cleanAmount s))).map partsVal

/-- What `to_decimal` can extract from a cell: `None`/NaN return the default
before stringification; empty-after-strip strings return the default; other
strings go through cleaning and the regex; a numeric cell stringifies to its
own decimal text and reparses to its own value; a date stringifies to
`YYYY-MM-DD`, which the amount regex always rejects. -/
def amountOfCell (value : Cell) : Option ℚ :=
  match value with
  | .null => none
  | .nan => none
  | .dateV _ => none
  | .num q => some q
  | .str s => if pyStrip s = [] then none else parseAmount s

/-- `to_decimal` (processing_utils.py lines 62-71): safe conversion of a cell
value to a decimal, with `Decimal('0.00')` as the default for anything that
does not parse, and absolute value under `make_positive`. -/
def to_decimal (value : Cell) (make_positive : Bool) : ℚ :=
  match value with
  | .null => 0
  | .nan => 0
  | .dateV _ => 0
  | .num q => if make_positive then |q| else q
  | .str s =>
    if pyStrip s = [] then 0
    else
      match parseAmount s with
      | some q => if make_positive then |q| else q
      | none => 0

/-! ### Transaction lines and the Aggregator (processing_utils.py 317-385) -/

inductive LineKind where
  | contribution
  | fee
deriving DecidableEq

structure TransLine where
  kind : LineKind
  amount : ℚ
deriving DecidableEq

/-- The line produced from one data row of an active target section
(processing_utils.py lines 320-321 and 356-361): the credit cell is parsed
with `make_positive=True` for Contribution sections, the debit cell is parsed
as-is for Fee sections, and zero-amount lines are dropped. -/
def lineOfDataRow (kind : LineKind) (debitCell creditCell : Cell) : Option TransLine :=
  let debit_val := to_decimal debitCell false
  let credit_val := to_decimal creditCell true
  let line_amount : ℚ :=
    match kind with
    | .contribution => credit_val
    | .fee => debit_val
  if line_amount = 0 then none else some ⟨kind, line_amount⟩

/-- One `defaultdict` update of `transactions_by_ref` (processing_utils.py
lines 364-367): append the line to the bucket of its key, creating the bucket
at the end on first sight (Python dicts preserve insertion order). -/
def addLineByRef (m : List (List Char × List TransLine)) (key : List Char) (l : TransLine) :
    List (List Char × List TransLine) :=
  if m.any (fun e => e.1 = key) then
    m.map (fun e => if e.1 = key then (e.1, e.2 ++ [l]) else e)
  else m ++ [(key, [l])]

/-- Grouping of parsed lines by normalized journal reference
(processing_utils.py line 353 and 364-367). -/
def transactions_by_ref (rows : List (List Char × TransLine)) :
    List (List Char × List TransLine) :=
  rows.foldl (fun m rl => addLineByRef m (normalize_jrnl_ref rl.1) rl.2) []

/-- `total_contribution` of one aggregated transaction
(processing_utils.py line 383). -/
def contribution_total (lines : List TransLine) : ℚ :=
  ((lines.filter (fun l => l.kind = LineKind.contribution)).map TransLine.amount).sum

/-- `total_fees` of one aggregated transaction (processing_utils.py line 384). -/
def fee_total (lines : List TransLine) : ℚ :=
  ((lines.filter (fun l => l.kind = LineKind.fee)).map TransLine.amount).sum

/-- `net_amount` (processing_utils.py line 385). -/
def net_amount (lines : List TransLine) : ℚ :=
  contribution_total lines - fee_total lines

/-! ### The Merger's sheet-level duplicate scan (processing_utils.py 417-445) -/

/-- One transaction as it reaches the Merger's insertion step: the raw
journal reference (the key of `transactions_by_ref` is its normalization,
line 353) and the already determined target sheet. -/
structure MergeTx where
  raw : List Char
  target : List Char
deriving DecidableEq

/-- One sheet as the duplicate scan sees it: `hasRefCol` records whether the
header row contains the `CLUB_SHEET_JRNL_COL` title (the column search of
processing_utils.py lines 419-420 succeeds), and `refs` holds the values of
that column position over the data rows (rows are appended from the fixed
`CLUB_SHEET_HEADERS`/`NEEDS_REVIEW_HEADERS` order, line 428, so the position
exists even when the title does not). -/
structure RefSheet where
  hasRefCol : Bool
  refs : List (List Char)
deriving DecidableEq

/-- The sheets of the workbook, restricted to what the duplicate scan reads;
sheet titles are unique (openpyxl enforces unique sheet titles). -/
abbrev RefWorkbook := List (List Char × RefSheet)

/-- The journal-reference column values of a sheet. -/
def sheetRefs : RefWorkbook → List Char → List (List Char)
  | [], _ => []
  | e :: t, n => if e.1 = n then e.2.refs else sheetRefs t n

/-- Whether the header-row search of processing_utils.py lines 419-420 finds
the journal-reference column in the named sheet. An absent sheet is reported
as having the column: by the time the scan runs the target sheet always
exists, and every sheet the code itself creates is created with the standard
headers, which include it (processing_utils.py lines 226-243). -/
def refColFound : RefWorkbook → List Char → Bool
  | [], _ => true
  | e :: t, n => if e.1 = n then e.2.hasRefCol else refColFound t n

/-- Append a reference row to a sheet. A sheet created here gets the standard
headers, hence `hasRefCol := true`; appending a data row never changes the
header row, so an existing sheet keeps its `hasRefCol`. -/
def appendSheetRef : RefWorkbook → List Char → List Char → RefWorkbook
  | [], n, r => [(n, ⟨true, [r]⟩)]
  | e :: t, n, r =>
    if e.1 = n then (e.1, ⟨e.2.hasRefCol, e.2.refs ++ [r]⟩) :: t
    else e :: appendSheetRef t n r

/-- The Merger's duplicate scan (processing_utils.py lines 418-424): the
header row is searched for the journal-reference column title; only if it is
found (`jrnl_col_idx_target != -1`) are the data rows scanned, comparing each
stored value after normalization against the transaction's normalized
reference. Without the column, `jrnl_exists_in_sheet` stays False. -/
def dupHit (wb : RefWorkbook) (tx : MergeTx) : Bool :=
  refColFound wb tx.target &&
    (sheetRefs wb tx.target).any
      (fun r => normalize_jrnl_ref r = normalize_jrnl_ref tx.raw)

/-- One Merger insertion (processing_utils.py lines 417-445), restricted to
the journal-reference column the duplicate scan reads: on a duplicate hit
skip (sheet-level duplicate), otherwise append the raw reference. -/
def mergeStep (wb : RefWorkbook) (tx : MergeTx) : RefWorkbook :=
  if dupHit wb tx then wb
  else appendSheetRef wb tx.target tx.raw

/-- A whole Merger pass over the aggregated transactions (Step 6 loop). -/
def mergeRun (txs : List MergeTx) (wb : RefWorkbook) : RefWorkbook :=
  txs.foldl mergeStep wb

/-- The Merger pass together with the `processed` and `duplicates_sheet`
counters (processing_utils.py lines 444-445). -/
def mergeRunCounts (txs : List MergeTx) (wb : RefWorkbook) : RefWorkbook × Nat × Nat :=
  txs.foldl (fun acc tx =>
    if dupHit acc.1 tx then (acc.1, acc.2.1, acc.2.2 + 1)
    else (appendSheetRef acc.1 tx.target tx.raw, acc.2.1 + 1, acc.2.2)) (wb, 0, 0)

/-- Membership of a normalized reference in the persistence store's
existing-reference set (processing_utils.py lines 241-242 and 442): the set
holds `normalize_jrnl_ref` of every stored reference and is probed with the
already normalized key. -/
def inExistingDbRefs (dbRefs : List (List Char)) (normalizedKey : List Char) : Bool :=
  dbRefs.any (fun r => normalize_jrnl_ref r = normalizedKey)

/-! ### Text normalization for club matching (processing_utils.py 84-91) -/

/-- ASCII `\w`: letters, digits and underscore. -/
def isWordChar (c : Char) : Bool :=
  isDigitChar c || (65 ≤ c.toNat && c.toNat ≤ 90) || (97 ≤ c.toNat && c.toNat ≤ 122) || c = '_'

/-- Remove every (left-to-right, non-overlapping) occurrence of a fixed
three-character sequence, as `str.replace(pat, '')` does. -/
def removeSeq3 (a b c : Char) : List Char → List Char
  | [] => []
  | [x] => [x]
  | [x, y] => [x, y]
  | x :: y :: z :: rest =>
    if x = a ∧ y = b ∧ z = c then removeSeq3 a b c rest
    else x :: removeSeq3 a b c (y :: z :: rest)

/-- `re.sub(r'[^\w\s]+', ' ', text)` with an explicit in-run flag: a maximal
run of non-word, non-space characters becomes a single space. -/
def subNonWordSpaceGo : Bool → List Char → List Char
  | _, [] => []
  | inRun, c :: rest =>
    if isWordChar c || isPySpace c then c :: subNonWordSpaceGo false rest
    else if inRun then subNonWordSpaceGo true rest
    else ' ' :: subNonWordSpaceGo true rest

/-- `re.sub(r'[^\w\s]+', ' ', text)`. -/
def subNonWordSpace (s : List Char) : List Char :=
  subNonWordSpaceGo false s

/-- `re.sub(r'\s+', ' ', text)` with an explicit in-run flag: a maximal
whitespace run becomes a single space. -/
def collapseSpacesGo : Bool → List Char → List Char
  | _, [] => []
  | inRun, c :: rest =>
    if isPySpace c then
      if inRun then collapseSpacesGo true rest
      else ' ' :: collapseSpacesGo true rest
    else c :: collapseSpacesGo false rest

/-- `re.sub(r'\s+', ' ', text)`. -/
def collapseSpaces (s : List Char) : List Char :=
  collapseSpacesGo false s

/-- `normalize_text_for_matching` (processing_utils.py lines 84-91):
lower-case, drop apostrophe/quote variants (including the mojibake
three-character right-quote sequence), replace punctuation runs with a
space, collapse whitespace and strip. An empty input returns `""` at once. -/
def normalize_text_for_matching (s : List Char) : List Char :=
  if s = [] then []
  else
    pyStrip (collapseSpaces (subNonWordSpace
      ((((removeSeq3 'â' '€' '™' ((s.map pyLowerChar).filter (fun c => c ≠ '\''))).filter
        (fun c => c ≠ '"')).filter (fun c => c ≠ '`')))))

/-! ### Whole-word substring matching (the `\b...\b` search, line 104-105) -/

/-- Is the character at 0-based position `i` a word character? (`false` past
either end.) -/
def wordAt (s : List Char) (i : Nat) : Bool :=
  match s.get? i with
  | some c => isWordChar c
  | none => false

/-- Does `\b` hold between positions `i-1` and `i` (0 ≤ i ≤ length)? -/
def boundaryAt (s : List Char) (i : Nat) : Bool :=
  (if i = 0 then false else wordAt s (i - 1)) != wordAt s i

/-- Does `pat` occur literally at 0-based position `i` of `s`? -/
def sublistAt (pat s : List Char) (i : Nat) : Bool :=
  decide ((s.drop i).take pat.length = pat)

/-- `re.search(r'\b' + re.escape(pat) + r'\b', s)`: a literal occurrence of
`pat` delimited by word boundaries on both sides. -/
def wbMatch (pat s : List Char) : Bool :=
  (List.range (s.length + 1)).any
    (fun i => sublistAt pat s i && boundaryAt s i && boundaryAt s (i + pat.length))

/-! ### The Club Matcher (processing_utils.py 94-122) -/

/-- One entry of the `normalized_to_original_club` dict: the normalized club
name (the key) and the original spelling (the value). -/
structure ClubEntry where
  norm : List Char
  orig : List Char
deriving DecidableEq

/-- One dict-comprehension step: overwriting a key keeps its position and
replaces its value (Python dict semantics). -/
def dictInsert (m : List ClubEntry) (k v : List Char) : List ClubEntry :=
  if m.any (fun e => e.norm = k) then
    m.map (fun e => if e.norm = k then ⟨k, v⟩ else e)
  else m ++ [⟨k, v⟩]

/-- `{normalize_text_for_matching(c): c for c in club_names_from_summary}`
(processing_utils.py line 101). -/
def normalizedToOriginal (clubs : List (List Char)) : List ClubEntry :=
  clubs.foldl (fun m c => dictInsert m (normalize_text_for_matching c) c) []

/-- `potential_matches` (lines 103-106), in dict iteration order. -/
def potentialMatches (nd : List Char) (clubs : List (List Char)) : List ClubEntry :=
  (normalizedToOriginal clubs).filter (fun e => wbMatch e.norm nd)

/-- Greatest normalized-name length among the potential matches (the sort key
of line 112). -/
def maxMatchLen (pm : List ClubEntry) : Nat :=
  (pm.map (fun e => e.norm.length)).foldl max 0

/-- `find_matching_club_sheet` (processing_utils.py lines 94-122).  After the
stable descending sort by match length, `potential_matches[0]` is the unique
longest candidate exactly when exactly one candidate attains the maximal
length; the tie branch returns the unique candidate whose re-normalized
original name equals the normalized designation, if any, else `None`. -/
def find_matching_club_sheet (designation : List Char) (clubs : List (List Char)) :
    Option (List Char) :=
  if designation = [] then none
  else if normalize_text_for_matching designation = [] then none
  else
    match potentialMatches (normalize_text_for_matching designation) clubs with
    | [] => none
    | [m] => some m.orig
    | _ :: _ :: _ =>
      match (potentialMatches (normalize_text_for_matching designation) clubs).filter
          (fun e => e.norm.length =
            maxMatchLen (potentialMatches (normalize_text_for_matching designation) clubs)) with
      | [m] => some m.orig
      | _ =>
        match (potentialMatches (normalize_text_for_matching designation) clubs).filter
            (fun e => normalize_text_for_matching e.orig =
              normalize_text_for_matching designation) with
        | [m] => some m.orig
        | _ => none

/-! ### Fiscal year and the recalculation filter (processing_utils.py 480-511,
sports_clubs.py 244-278) -/

/-- `date(today.year if today.month >= 7 else today.year - 1, 7, 1)`. -/
def current_fiscal_year_start (today : PDate) : PDate :=
  ⟨if 7 ≤ today.m then today.y else today.y - 1, 7, 1⟩

/-- One data row of a club sheet as the recalculation reads it: the robustly
converted date (`none` when the cell cannot be converted to a date) and the
two amount cells. -/
structure ClubSheetRow where
  dateCell : Option PDate
  contribCell : Cell
  chargesCell : Cell
deriving DecidableEq

/-- Is the row dated on or after the current fiscal-year start? -/
def inCurrentFY (today : PDate) (r : ClubSheetRow) : Bool :=
  match r.dateCell with
  | some dt => dateLe (current_fiscal_year_start today) dt
  | none => false

/-- The fiscal-year summation of the Summary recalculation
(processing_utils.py lines 497-511): accumulate `to_decimal` of the
contribution and charges cells over rows whose date is on or after the
fiscal-year start. -/
def fySums (rows : List ClubSheetRow) (today : PDate) : ℚ × ℚ :=
  rows.foldl (fun acc r =>
    match r.dateCell with
    | some dt =>
      if dateLe (current_fiscal_year_start today) dt then
        (acc.1 + to_decimal r.contribCell false, acc.2 + to_decimal r.chargesCell false)
      else acc
    | none => acc) (0, 0)

/-! ### Workbook model for the Review Workflow (sports_clubs.py 99-300) -/

abbrev Row := List Cell
abbrev Workbook := List (List Char × List Row)

def SUMMARY_SHEET_NAME : List Char := "Summary".toList
def SUMMARY_INDIVIDUAL_SHEET_NAME : List Char := "Summary Individual".toList
def NEEDS_REVIEW_SHEET_NAME : List Char := "Needs Review".toList
def SUMMARY_CLUB_COL : List Char := "Sports Clubs".toList
def SUMMARY_ROLLOVER_COL : List Char := "Rollover".toList
def SUMMARY_CONTRIB_COL : List Char := "Sum of Contribution".toList
def SUMMARY_CHARGES_COL : List Char := "Sum of Chgs/offset".toList
def SUMMARY_EXPENSES_COL : List Char := "Sum of Expenses".toList
def SUMMARY_REMAINING_COL : List Char := "Sum of Remaining".toList
def JOURNAL_REF_HEADER : List Char := "Journal Ref".toList
def DONATION_USE_HEADER : List Char := "Donation Use".toList

/-- `CLUB_SHEET_HEADERS` (processing_utils.py line 55). -/
def CLUB_SHEET_HEADERS : List (List Char) :=
  ["Date".toList, "Type".toList, JOURNAL_REF_HEADER, "Donor/Description".toList,
   "Contribution Amount".toList, "Charges/Offset".toList, "Net Amount".toList,
   DONATION_USE_HEADER]

/-- `workbook[name]` lookup; openpyxl sheet titles are unique. -/
def wbFind : Workbook → List Char → Option (List Row)
  | [], _ => none
  | e :: t, n => if e.1 = n then some e.2 else wbFind t n

/-- Replace a sheet's rows; an absent sheet is created at the end, as
`create_sheet` does. -/
def wbSet : Workbook → List Char → List Row → Workbook
  | [], n, rows => [(n, rows)]
  | e :: t, n, rows => if e.1 = n then (e.1, rows) :: t else e :: wbSet t n rows

/-- `ws.cell(row=r, column=c).value` with 1-based indices (`None` beyond the
used range). -/
def cellAt (rows : List Row) (r c : Nat) : Cell :=
  match rows.get? (r - 1) with
  | some row => (row.get? (c - 1)).getD Cell.null
  | none => Cell.null

/-- Write a cell inside a row, padding with empty cells when the row is
shorter than the target column. -/
def setInRow (row : Row) (c : Nat) (v : Cell) : Row :=
  (row ++ List.replicate (c - row.length) Cell.null).set (c - 1) v

/-- `ws.cell(row=r, column=c).value = v` for a row that exists. -/
def setCellAt (rows : List Row) (r c : Nat) (v : Cell) : List Row :=
  rows.set (r - 1) (setInRow ((rows.get? (r - 1)).getD []) c v)

/-- 1-based index of the first header cell equal, as a raw value, to the
string `name` (loop with `break`, sports_clubs.py 131-134). -/
def findColFirst (header : Row) (name : List Char) : Option Nat :=
  (header.findIdx? (fun c => c = Cell.str name)).map (· + 1)

/-- 1-based index of the last header cell equal, as a raw value, to the
string `name` (loop without `break`, sports_clubs.py 188-190). -/
def findColLast (header : Row) (name : List Char) : Option Nat :=
  match header.reverse.findIdx? (fun c => c = Cell.str name) with
  | some i => some (header.length - i)
  | none => none

/-- `str(cell.value).strip() if cell.value is not None else ""` for the cell
shapes that occur in header rows; numeric, NaN and date cells stringify to
decimal or timestamp text that never equals a tracked header word, modelled
by a reserved placeholder. -/
def cellHeaderStr : Cell → List Char
  | .str s => pyStrip s
  | .null => []
  | .num _ => ['#']
  | .nan => ['#']
  | .dateV _ => ['#']

def rowHeaderStrs (row : Row) : List (List Char) :=
  row.map cellHeaderStr

def REQUIRED_SUMMARY_HEADERS : List (List Char) :=
  [SUMMARY_CLUB_COL, SUMMARY_ROLLOVER_COL, SUMMARY_CONTRIB_COL, SUMMARY_CHARGES_COL,
   SUMMARY_EXPENSES_COL, SUMMARY_REMAINING_COL]

/-- First 1-based row whose stringified values contain all six required
summary headers (sports_clubs.py 225-231: the replay searches every row). -/
def findSummaryHeaderRow (rows : List Row) : Option Nat :=
  ((List.range rows.length).map (· + 1)).find? (fun r =>
    REQUIRED_SUMMARY_HEADERS.all (fun h =>
      (rowHeaderStrs ((rows.get? (r - 1)).getD [])).contains h))

/-- 1-based column of the last header cell whose stripped string equals
`name` (dict built without `break`: later assignments win). -/
def findColLastStr (header : Row) (name : List Char) : Option Nat :=
  match header.reverse.findIdx? (fun c => cellHeaderStr c = name) with
  | some i => some (header.length - i)
  | none => none

/-- `re.sub(r'[\\/*?:\[\]]', '_', name)[:31]` (sheet-name sanitization). -/
def sanitizeSheetName (n : List Char) : List Char :=
  (n.map (fun c =>
    if c = '\\' ∨ c = '/' ∨ c = '*' ∨ c = '?' ∨ c = ':' ∨ c = '[' ∨ c = ']' then '_'
    else c)).take 31

/-- The Review Workflow's sheet-name variant (sports_clubs.py 149-151):
sanitize, then drop a trailing " club" (case-insensitive) and strip. -/
def reviewClubSheetName (n : List Char) : List Char :=
  let s := sanitizeSheetName n
  if (" club".toList).isSuffixOf (s.map pyLowerChar) then pyStrip (s.take (s.length - 5))
  else s

structure FoundationTx where
  transaction_date : PDate
  journal_ref : List Char
  donor_description : List Char
  gross_amount : ℚ
  fees_total : ℚ
  net_amount : ℚ
deriving DecidableEq

structure ClubRec where
  id : Nat
  name : List Char
deriving DecidableEq

/-- `row_data` (sports_clubs.py 164-173). -/
def reviewRowData (tx : FoundationTx) (club : ClubRec) : Row :=
  [Cell.dateV tx.transaction_date,
   Cell.str (if 0 < tx.gross_amount then "Contribution".toList else "Fee/Expense".toList),
   Cell.str tx.journal_ref,
   Cell.str tx.donor_description,
   Cell.num tx.gross_amount,
   Cell.num tx.fees_total,
   Cell.num tx.net_amount,
   Cell.str club.name]

/-- Bottom-most data-row index whose journal-reference cell equals, as a raw
value, the given reference (sports_clubs.py 136-139: the scan runs from
`max_row` down to row 2 and stops at the first hit). -/
def lastRawMatchIdx (rows : List Row) (col : Nat) (ref : List Char) : Option Nat :=
  (((List.range rows.length).map (· + 1)).filter
    (fun r => decide (2 ≤ r ∧ cellAt rows r col = Cell.str ref))).getLast?

/-- Top-down first data-row index with a raw journal-reference hit
(sports_clubs.py 194-199). -/
def firstRawMatchIdx (rows : List Row) (col : Nat) (ref : List Char) : Option Nat :=
  ((List.range rows.length).map (· + 1)).find?
    (fun r => decide (2 ≤ r ∧ cellAt rows r col = Cell.str ref))

/-- `ws.delete_rows(r)` for a single 1-based row index. -/
def deleteRowIdx (rows : List Row) (r : Nat) : List Row :=
  rows.take (r - 1) ++ rows.drop r

/-- Step (b) of the Review Workflow (sports_clubs.py 122-146): remove the
bottom-most Needs-Review row whose journal-reference cell equals the
transaction's raw `journal_ref`; a missing sheet, header column or row only
logs a warning and leaves the workbook unchanged. -/
def stepRemoveNR (wb : Workbook) (jref : List Char) : Workbook :=
  match wbFind wb NEEDS_REVIEW_SHEET_NAME with
  | none => wb
  | some rows =>
    match findColFirst ((rows.get? 0).getD []) JOURNAL_REF_HEADER with
    | none => wb
    | some col =>
      match lastRawMatchIdx rows col jref with
      | none => wb
      | some r => wbSet wb NEEDS_REVIEW_SHEET_NAME (deleteRowIdx rows r)

/-- Step (c) (sports_clubs.py 148-179): append the transaction row to the
assigned club's sheet, creating the sheet with the standard header first when
absent. -/
def stepAppendClub (wb : Workbook) (tx : FoundationTx) (club : ClubRec) : Workbook :=
  let sname := reviewClubSheetName club.name
  match wbFind wb sname with
  | some rows => wbSet wb sname (rows ++ [reviewRowData tx club])
  | none => wb ++ [(sname, [CLUB_SHEET_HEADERS.map Cell.str, reviewRowData tx club])]

/-- Step (d) (sports_clubs.py 181-208): in Summary-Individual, set the
club-assignment cell of the first row with a raw journal-reference hit;
append the whole row when no row matched or a header column was not found; a
missing sheet only logs a warning. -/
def stepUpdateSI (wb : Workbook) (tx : FoundationTx) (club : ClubRec) : Workbook :=
  match wbFind wb SUMMARY_INDIVIDUAL_SHEET_NAME with
  | none => wb
  | some rows =>
    match findColLast ((rows.get? 0).getD []) JOURNAL_REF_HEADER,
        findColLast ((rows.get? 0).getD []) DONATION_USE_HEADER with
    | some jc, some cc =>
      match firstRawMatchIdx rows jc tx.journal_ref with
      | some r =>
        wbSet wb SUMMARY_INDIVIDUAL_SHEET_NAME (setCellAt rows r cc (Cell.str club.name))
      | none => wbSet wb SUMMARY_INDIVIDUAL_SHEET_NAME (rows ++ [reviewRowData tx club])
    | _, _ => wbSet wb SUMMARY_INDIVIDUAL_SHEET_NAME (rows ++ [reviewRowData tx club])

structure SummaryCols where
  club : Nat
  rollover : Nat
  contrib : Nat
  charges : Nat
  expenses : Nat
  remaining : Nat
deriving DecidableEq

def findSummaryCols (header : Row) : Option SummaryCols :=
  match findColLastStr header SUMMARY_CLUB_COL, findColLastStr header SUMMARY_ROLLOVER_COL,
    findColLastStr header SUMMARY_CONTRIB_COL, findColLastStr header SUMMARY_CHARGES_COL,
    findColLastStr header SUMMARY_EXPENSES_COL, findColLastStr header SUMMARY_REMAINING_COL with
  | some a, some b, some c2, some d, some e, some f => some ⟨a, b, c2, d, e, f⟩
  | _, _, _, _, _, _ => none

/-- Python truthiness of a cell value (`if not club_name_summary`). -/
def cellTruthy : Cell → Bool
  | .null => false
  | .nan => true
  | .str s => s ≠ []
  | .num q => q ≠ 0
  | .dateV _ => true

/-- `str(cell.value)` for a club-name cell; non-string values stringify to
text of no interest, modelled by placeholders. -/
def cellPyStr : Cell → List Char
  | .str s => s
  | .null => "None".toList
  | .nan => "nan".toList
  | .num _ => ['#']
  | .dateV _ => ['#']

/-- Fiscal-year totals of one club sheet in the Review replay
(sports_clubs.py 258-278): locate the Date / Contribution Amount /
Charges-Offset columns from the sheet's first row, then sum `to_decimal` of
the two amount cells over data rows whose date cell holds a genuine date on
or after the fiscal-year start (this replay converts only date cells). -/
def clubSheetFYTotals (rows : List Row) (today : PDate) : ℚ × ℚ :=
  match findColLastStr ((rows.get? 0).getD []) ("Date".toList),
      findColLastStr ((rows.get? 0).getD []) ("Contribution Amount".toList),
      findColLastStr ((rows.get? 0).getD []) ("Charges/Offset".toList) with
  | some dc, some cc, some chc =>
    ((List.range rows.length).map (· + 1)).foldl (fun acc r =>
      if 2 ≤ r then
        match cellAt rows r dc with
        | Cell.dateV dt =>
          if dateLe (current_fiscal_year_start today) dt then
            (acc.1 + to_decimal (cellAt rows r cc) false,
             acc.2 + to_decimal (cellAt rows r chc) false)
          else acc
        | _ => acc
      else acc) (0, 0)
  | _, _, _ => (0, 0)

/-- One row of the Summary recalculation loop (sports_clubs.py 247-289):
skip falsy and grand-total club cells; otherwise recompute the fiscal-year
totals from the club's sheet and rewrite the contribution, charges and
remaining cells (`remaining = rollover + contrib - charges - expenses`). -/
def summaryRowUpdate (wb : Workbook) (cols : SummaryCols) (today : PDate)
    (srows : List Row) (r : Nat) : List Row :=
  let nameCell := cellAt srows r cols.club
  let nameStr := pyStrip (cellPyStr nameCell)
  if cellTruthy nameCell = false ∨ nameStr.map pyLowerChar = "grand total".toList then srows
  else
    let totals :=
      match wbFind wb (sanitizeSheetName nameStr) with
      | some crows => clubSheetFYTotals crows today
      | none => ((0 : ℚ), (0 : ℚ))
    let rollover := to_decimal (cellAt srows r cols.rollover) false
    let expenses := to_decimal (cellAt srows r cols.expenses) false
    let remaining := rollover + totals.1 - totals.2 - expenses
    setCellAt (setCellAt (setCellAt srows r cols.contrib (Cell.num totals.1))
      r cols.charges (Cell.num totals.2)) r cols.remaining (Cell.num remaining)

/-- Step (e): the Summary recalculation (sports_clubs.py 211-290); `none`
models the `return False` paths (missing Summary sheet or headers). -/
def recalcSummary (wb : Workbook) (today : PDate) : Option Workbook :=
  match wbFind wb SUMMARY_SHEET_NAME with
  | none => none
  | some srows =>
    match findSummaryHeaderRow srows with
    | none => none
    | some hIdx =>
      match findSummaryCols ((srows.get? (hIdx - 1)).getD []) with
      | none => none
      | some cols =>
        some (wbSet wb SUMMARY_SHEET_NAME
          ((((List.range srows.length).map (· + 1)).filter (fun r => decide (hIdx < r))).foldl
            (summaryRowUpdate wb cols today) srows))

/-- `_update_temp_summary_after_review` (sports_clubs.py 99-300) on the
in-memory workbook: steps (b)-(e) in order.  All mutations happen in memory
and the file is written only at the very end (line 293), so a `none` result
(the `return False` paths) leaves the stored file untouched. -/
def updateAfterReview (wb : Workbook) (tx : FoundationTx) (club : ClubRec) (today : PDate) :
    Option Workbook :=
  recalcSummary (stepUpdateSI (stepAppendClub (stepRemoveNR wb tx.journal_ref) tx club) tx club)
    today

inductive TxStatus where
  | needs_review
  | reconciled
  | ignored
deriving DecidableEq

/-- A persisted `FoundationTransaction` record (models.py 178-210). -/
structure TxRecord where
  id : Nat
  status : TxStatus
  club_id : Option Nat
  assigned_club_name : Option (List Char)
  tx : FoundationTx
deriving DecidableEq

/-- The observable outcome of one `foundation_review` POST: the committed
records, the stored workbook file, whether the assignment succeeded, and
whether the workbook file update succeeded (`wbUpdated = false` is the
warning flash saying the downloadable summary could not be updated). -/
structure ReviewOutcome where
  db : List TxRecord
  file : Option Workbook
  assigned : Bool
  wbUpdated : Bool

/-- The workbook-file part of the review: try to update the stored file
through `_update_temp_summary_after_review`; on failure (including a missing
stored file) keep the file unchanged and report the warning. -/
def foundationReviewFile (db2 : List TxRecord) (tx : FoundationTx) (club : ClubRec)
    (file : Option Workbook) (today : PDate) : ReviewOutcome :=
  match file with
  | some wb =>
    match updateAfterReview wb tx club today with
    | some wb2 => ⟨db2, some wb2, true, true⟩
    | none => ⟨db2, some wb, true, false⟩
  | none => ⟨db2, none, true, false⟩

/-- The body of a successful lookup: commit the status change and club
assignment, then try to update the stored workbook file. -/
def foundationReviewApply (db : List TxRecord) (t0 : TxRecord) (club : ClubRec)
    (file : Option Workbook) (txId : Nat) (today : PDate) : ReviewOutcome :=
  foundationReviewFile
    (db.map (fun t =>
      if t.id = txId ∧ t.status = TxStatus.needs_review then
        { t0 with status := TxStatus.reconciled, club_id := some club.id,
                  assigned_club_name := some club.name } else t))
    t0.tx club file today

/-- `foundation_review` POST (sports_clubs.py 652-693): look up the
transaction (it must still be `needs_review`) and the club; commit the
status change and club assignment; then try to update the stored workbook
file through `_update_temp_summary_after_review`.  `file = none` models a
session without a stored temp file (the helper's early `return False`).
Record ids are unique (primary key). -/
def foundationReviewPost (db : List TxRecord) (clubs : List ClubRec) (file : Option Workbook)
    (txId clubId : Nat) (today : PDate) : ReviewOutcome :=
  match db.find? (fun t => decide (t.id = txId ∧ t.status = TxStatus.needs_review)),
      clubs.find? (fun c => c.id = clubId) with
  | some t0, some club => foundationReviewApply db t0 club file txId today
  | _, _ => ⟨db, file, false, false⟩

/-! ### Character-level lemmas -/

theorem char_eq_of_toNat_eq {a b : Char} (h : a.toNat = b.toNat) : a = b :=
  Char.eq_of_val_eq (UInt32.ext h)

theorem char_eq_iff_toNat {a b : Char} : a = b ↔ a.toNat = b.toNat :=
  ⟨fun h => h ▸ rfl, char_eq_of_toNat_eq⟩

theorem toNat_ofNat_lt {n : Nat} (h : n < 55296) : (Char.ofNat n).toNat = n := by
  unfold Char.ofNat
  rw [dif_pos (Or.inl h)]
  rfl

theorem isPySpace_toNat (c : Char) :
    isPySpace c = true ↔
      (c.toNat = 32 ∨ c.toNat = 9 ∨ c.toNat = 10 ∨ c.toNat = 13 ∨ c.toNat = 11 ∨ c.toNat = 12) := by
  unfold isPySpace
  simp only [Bool.or_eq_true, decide_eq_true_eq, char_eq_iff_toNat,
    show ' '.toNat = 32 from rfl, show '\t'.toNat = 9 from rfl, show '\n'.toNat = 10 from rfl,
    show '\r'.toNat = 13 from rfl, show '\x0b'.toNat = 11 from rfl, show '\x0c'.toNat = 12 from rfl]
  tauto

theorem isDigitChar_toNat (c : Char) : isDigitChar c = true ↔ (48 ≤ c.toNat ∧ c.toNat ≤ 57) := by
  unfold isDigitChar
  simp

theorem pyUpperChar_toNat (c : Char) :
    (pyUpperChar c).toNat = if 97 ≤ c.toNat ∧ c.toNat ≤ 122 then c.toNat - 32 else c.toNat := by
  unfold pyUpperChar
  by_cases h : 97 ≤ c.toNat ∧ c.toNat ≤ 122
  · rw [if_pos (by simpa using h), if_pos h]
    exact toNat_ofNat_lt (by omega)
  · rw [if_neg (by simpa using h), if_neg h]

theorem pyUpperChar_idem (c : Char) : pyUpperChar (pyUpperChar c) = pyUpperChar c := by
  apply char_eq_of_toNat_eq
  have h1 := pyUpperChar_toNat c
  have h2 := pyUpperChar_toNat (pyUpperChar c)
  by_cases h : 97 ≤ c.toNat ∧ c.toNat ≤ 122
  · rw [if_pos h] at h1
    rw [h2, h1, if_neg (by omega)]
  · rw [if_neg h] at h1
    rw [h2, h1, if_neg h]

theorem isPySpace_pyUpperChar (c : Char) : isPySpace (pyUpperChar c) = isPySpace c := by
  have h1 := pyUpperChar_toNat c
  by_cases h : 97 ≤ c.toNat ∧ c.toNat ≤ 122
  · rw [if_pos h] at h1
    have e1 : isPySpace (pyUpperChar c) = false := by
      rw [← Bool.not_eq_true, isPySpace_toNat, h1]; omega
    have e2 : isPySpace c = false := by
      rw [← Bool.not_eq_true, isPySpace_toNat]; omega
    rw [e1, e2]
  · rw [if_neg h] at h1
    rw [char_eq_of_toNat_eq h1]

theorem isDigitChar_pyUpperChar (c : Char) : isDigitChar (pyUpperChar c) = isDigitChar c := by
  have h1 := pyUpperChar_toNat c
  by_cases h : 97 ≤ c.toNat ∧ c.toNat ≤ 122
  · rw [if_pos h] at h1
    have e1 : isDigitChar (pyUpperChar c) = false := by
      rw [← Bool.not_eq_true, isDigitChar_toNat, h1]; omega
    have e2 : isDigitChar c = false := by
      rw [← Bool.not_eq_true, isDigitChar_toNat]; omega
    rw [e1, e2]
  · rw [if_neg h] at h1
    rw [char_eq_of_toNat_eq h1]

theorem pyUpperChar_eq_symbol {c d : Char}
    (hd1 : ¬(65 ≤ d.toNat ∧ d.toNat ≤ 90)) (hd2 : ¬(97 ≤ d.toNat ∧ d.toNat ≤ 122)) :
    (pyUpperChar c = d) ↔ (c = d) := by
  have h1 := pyUpperChar_toNat c
  by_cases h : 97 ≤ c.toNat ∧ c.toNat ≤ 122
  · rw [if_pos h] at h1
    constructor
    · intro he
      exfalso; apply hd1
      have := congrArg Char.toNat he
      rw [h1] at this
      omega
    · intro he
      exfalso; apply hd2
      have := congrArg Char.toNat he
      omega
  · rw [if_neg h] at h1
    rw [char_eq_of_toNat_eq h1]

theorem pyUpperChar_digit {c : Char} (h : isDigitChar c = true) : pyUpperChar c = c := by
  apply char_eq_of_toNat_eq
  rw [pyUpperChar_toNat, if_neg]
  rw [isDigitChar_toNat] at h
  omega

theorem isPySpace_digit {c : Char} (h : isDigitChar c = true) : isPySpace c = false := by
  rw [← Bool.not_eq_true, isPySpace_toNat]
  rw [isDigitChar_toNat] at h
  omega

/-! ### Strip lemmas -/

theorem dropWhile_of_head {p : Char → Bool} {s : List Char}
    (h : ∀ c, s.head? = some c → p c = false) : s.dropWhile p = s := by
  cases s with
  | nil => rfl
  | cons c cs => simp [List.dropWhile, h c rfl]

theorem head_dropWhile_false (p : Char → Bool) (s : List Char) :
    ∀ c, (s.dropWhile p).head? = some c → p c = false := by
  induction s with
  | nil => intro c h; simp [List.dropWhile] at h
  | cons a as ih =>
    intro c h
    by_cases hp : p a
    · rw [List.dropWhile_cons, if_pos hp] at h
      exact ih c h
    · rw [List.dropWhile_cons, if_neg hp] at h
      simp only [List.head?_cons, Option.some.injEq] at h
      rw [← h]
      exact Bool.not_eq_true _ ▸ hp

theorem dropWhile_idem (p : Char → Bool) (s : List Char) :
    (s.dropWhile p).dropWhile p = s.dropWhile p :=
  dropWhile_of_head (head_dropWhile_false p s)

theorem pyStrip_idem (s : List Char) : pyStrip (pyStrip s) = pyStrip s := by
  unfold pyStrip
  set u := s.dropWhile isPySpace with hu
  set v := u.reverse.dropWhile isPySpace with hv
  have h1 : v.reverse.dropWhile isPySpace = v.reverse := by
    apply dropWhile_of_head
    intro c hc
    obtain ⟨w, hw⟩ : ∃ w, w ++ v = u.reverse := List.dropWhile_suffix isPySpace
    have hu2 : u = v.reverse ++ w.reverse := by
      have h3 := congrArg List.reverse hw
      simpa using h3.symm
    cases hcv : v.reverse with
    | nil => rw [hcv] at hc; simp at hc
    | cons a t =>
      rw [hcv] at hc
      simp only [List.head?_cons, Option.some.injEq] at hc
      have h4 : u.head? = some a := by rw [hu2, hcv]; simp
      have h5 := head_dropWhile_false isPySpace s a (by rw [hu] at h4; exact h4)
      rwa [hc] at h5
  rw [h1, List.reverse_reverse, hv, dropWhile_idem]

theorem pyStrip_of_all_not {s : List Char} (h : ∀ c ∈ s, isPySpace c = false) :
    pyStrip s = s := by
  have hx : ∀ (t : List Char), (∀ c ∈ t, isPySpace c = false) → t.dropWhile isPySpace = t := by
    intro t ht
    apply dropWhile_of_head
    intro c hc
    cases t with
    | nil => simp at hc
    | cons a t =>
      simp only [List.head?_cons, Option.some.injEq] at hc
      exact ht c (by rw [← hc]; exact List.mem_cons_self a t)
  unfold pyStrip
  rw [hx s h, hx s.reverse (fun c hc => h c (List.mem_reverse.mp hc)), List.reverse_reverse]

theorem dropWhile_map_upper (s : List Char) :
    (s.map pyUpperChar).dropWhile isPySpace = (s.dropWhile isPySpace).map pyUpperChar := by
  induction s with
  | nil => rfl
  | cons a t ih =>
    simp only [List.map_cons, List.dropWhile_cons, isPySpace_pyUpperChar]
    by_cases h : isPySpace a
    · simp only [h, if_true, ih]
    · simp [h, List.map_cons]

theorem pyStrip_map_upper (s : List Char) :
    pyStrip (s.map pyUpperChar) = (pyStrip s).map pyUpperChar := by
  unfold pyStrip
  rw [dropWhile_map_upper, ← List.map_reverse, dropWhile_map_upper, ← List.map_reverse]

/-! ### Integer-print/parse roundtrip lemmas -/

theorem digitsVal_append (xs : List Char) (c : Char) :
    digitsVal (xs ++ [c]) = 10 * digitsVal xs + (c.toNat - 48) := by
  unfold digitsVal
  rw [List.foldl_append]
  rfl

theorem digitsVal_rev_digits (ds : List Nat) (h : ∀ d ∈ ds, d < 10) :
    digitsVal ((ds.map Nat.digitChar).reverse) = Nat.ofDigits 10 ds := by
  induction ds with
  | nil => rfl
  | cons d t ih =>
    simp only [List.map_cons, List.reverse_cons]
    rw [digitsVal_append, ih (fun x hx => h x (List.mem_cons_of_mem _ hx))]
    have hd : d < 10 := h d (List.mem_cons_self d t)
    have hdc : (Nat.digitChar d).toNat - 48 = d := by interval_cases d <;> decide
    rw [hdc, Nat.ofDigits_cons]
    omega

theorem digitChar_isDigit {d : Nat} (h : d < 10) : isDigitChar (Nat.digitChar d) = true := by
  interval_cases d <;> decide

theorem pyNatStr_ne_nil (n : Nat) : pyNatStr n ≠ [] := by
  unfold pyNatStr
  split
  · simp
  · next h =>
    simp only [ne_eq, List.reverse_eq_nil_iff, List.map_eq_nil_iff]
    exact Nat.digits_ne_nil_iff_ne_zero.mpr h

theorem pyNatStr_all_digits (n : Nat) : (pyNatStr n).all isDigitChar = true := by
  unfold pyNatStr
  split
  · decide
  · rw [List.all_eq_true]
    intro x hx
    rw [List.mem_reverse, List.mem_map] at hx
    obtain ⟨d, hd, hdx⟩ := hx
    rw [← hdx]
    exact digitChar_isDigit (Nat.digits_lt_base (by norm_num) hd)

theorem digitsVal_pyNatStr (n : Nat) : digitsVal (pyNatStr n) = n := by
  unfold pyNatStr
  split
  · next h => rw [h]; decide
  · rw [digitsVal_rev_digits _ (fun d hd => Nat.digits_lt_base (by norm_num) hd)]
    exact Nat.ofDigits_digits 10 n

theorem pyParseDigits_pyNatStr (n : Nat) : pyParseDigits (pyNatStr n) = some n := by
  unfold pyParseDigits
  rw [if_pos ⟨pyNatStr_ne_nil n, pyNatStr_all_digits n⟩, digitsVal_pyNatStr]

theorem pyNatStr_head_digit (n : Nat) {c : Char} {rest : List Char}
    (h : pyNatStr n = c :: rest) : isDigitChar c = true := by
  have h1 := pyNatStr_all_digits n
  rw [h, List.all_cons, Bool.and_eq_true] at h1
  exact h1.1

theorem pyParseInt_pyIntStr (i : Int) : pyParseInt (pyIntStr i) = some i := by
  unfold pyIntStr
  by_cases hneg : i < 0
  · rw [if_pos hneg]
    have h1 : pyParseInt ('-' :: pyNatStr i.natAbs) =
        match pyParseDigits (pyNatStr i.natAbs) with
        | some n => some (-(n : Int))
        | none => none := by
      simp only [pyParseInt]
      simp
    rw [h1, pyParseDigits_pyNatStr]
    show some (-(i.natAbs : Int)) = some i
    congr 1
    omega
  · rw [if_neg hneg]
    cases hs : pyNatStr i.natAbs with
    | nil => exact absurd hs (pyNatStr_ne_nil _)
    | cons c rest =>
      have hcd := pyNatStr_head_digit _ hs
      have h1 : pyParseInt (c :: rest) =
          match pyParseDigits (c :: rest) with
          | some n => some ((n : Int))
          | none => none := by
        simp only [pyParseInt]
        rw [if_neg (by rintro rfl; exact absurd hcd (by decide)),
          if_neg (by rintro rfl; exact absurd hcd (by decide))]
      rw [h1, ← hs, pyParseDigits_pyNatStr]
      show some ((i.natAbs : Int)) = some i
      congr 1
      omega

theorem pyStrip_pyIntStr (i : Int) : pyStrip (pyIntStr i) = pyIntStr i := by
  apply pyStrip_of_all_not
  intro c hc
  unfold pyIntStr at hc
  have hdig : ∀ d ∈ pyNatStr i.natAbs, isPySpace d = false := by
    intro d hd
    have h1 := pyNatStr_all_digits i.natAbs
    rw [List.all_eq_true] at h1
    exact isPySpace_digit (h1 d hd)
  by_cases hneg : i < 0
  · rw [if_pos hneg] at hc
    rcases List.mem_cons.mp hc with h | h
    · rw [h]; decide
    · exact hdig c h
  · rw [if_neg hneg] at hc
    exact hdig c hc

theorem all_digits_map_upper {s : List Char} (h : s.all isDigitChar = true) :
    s.map pyUpperChar = s := by
  rw [List.all_eq_true] at h
  induction s with
  | nil => rfl
  | cons a t ih =>
    rw [List.map_cons, pyUpperChar_digit (h a (List.mem_cons_self a t)),
      ih (fun x hx => h x (List.mem_cons_of_mem _ hx))]

theorem pyParseDigits_map_upper (s : List Char) :
    pyParseDigits (s.map pyUpperChar) = pyParseDigits s := by
  by_cases ha : s.all isDigitChar = true
  · rw [all_digits_map_upper ha]
  · have h2 : (s.map pyUpperChar).all isDigitChar = false := by
      rw [List.all_map, show isDigitChar ∘ pyUpperChar = isDigitChar
        from funext fun c => isDigitChar_pyUpperChar c]
      exact Bool.not_eq_true _ ▸ ha
    have ha2 : s.all isDigitChar = false := by
      cases hb : s.all isDigitChar
      · rfl
      · exact absurd hb ha
    unfold pyParseDigits
    rw [if_neg (by rw [h2]; simp), if_neg (by rw [ha2]; simp)]

theorem pyParseInt_map_upper_none {s : List Char} (h : pyParseInt s = none) :
    pyParseInt (s.map pyUpperChar) = none := by
  cases s with
  | nil => rfl
  | cons c rest =>
    simp only [List.map_cons, pyParseInt] at h ⊢
    have e1 : (pyUpperChar c = '-') = (c = '-') :=
      propext (pyUpperChar_eq_symbol (by decide) (by decide))
    have e2 : (pyUpperChar c = '+') = (c = '+') :=
      propext (pyUpperChar_eq_symbol (by decide) (by decide))
    simp only [e1, e2]
    by_cases h1 : c = '-'
    · rw [if_pos h1] at h ⊢
      rw [pyParseDigits_map_upper]
      exact h
    · rw [if_neg h1] at h ⊢
      by_cases h2 : c = '+'
      · rw [if_pos h2] at h ⊢
        rw [pyParseDigits_map_upper]
        exact h
      · rw [if_neg h2] at h ⊢
        rw [show pyUpperChar c :: rest.map pyUpperChar = (c :: rest).map pyUpperChar
          from rfl, pyParseDigits_map_upper]
        exact h

/-- C8 auxiliary: the numeric branch of `normalize_jrnl_ref` prints in the
canonical form that strips and re-parses to the same integer. -/
theorem normalize_jrnl_ref_idem_num (i : Int) :
    normalize_jrnl_ref (pyIntStr i) = pyIntStr i := by
  simp only [normalize_jrnl_ref]
  rw [pyStrip_pyIntStr, pyParseInt_pyIntStr]

/-- C8: the journal-reference normalization function is idempotent:
`normalize_jrnl_ref (normalize_jrnl_ref x) = normalize_jrnl_ref x` for every
reference string `x` (processing_utils.py lines 74-81). -/
theorem normalize_jrnl_ref_idem (x : List Char) :
    normalize_jrnl_ref (normalize_jrnl_ref x) = normalize_jrnl_ref x := by
  cases hp : pyParseInt (pyStrip x) with
  | some i =>
    have hx : normalize_jrnl_ref x = pyIntStr i := by
      simp only [normalize_jrnl_ref, hp]
    rw [hx, normalize_jrnl_ref_idem_num]
  | none =>
    have hx : normalize_jrnl_ref x = (pyStrip x).map pyUpperChar := by
      simp only [normalize_jrnl_ref, hp]
    rw [hx]
    simp only [normalize_jrnl_ref]
    rw [pyStrip_map_upper, pyStrip_idem, pyParseInt_map_upper_none hp, List.map_map,
      show pyUpperChar ∘ pyUpperChar = pyUpperChar from funext pyUpperChar_idem]

/-! ### C9: totality of `to_decimal` -/

/-- C9: `to_decimal` is total over all cell values: `None`, NaN, and every
string that is empty or whitespace after stripping or whose cleaned form
fails the amount regex return the default `Decimal('0.00')`; every parseable
input returns its finite decimal value, with the absolute value taken when
`make_positive` is set, so the result under `make_positive` is never
negative.  Totality itself is witnessed by `to_decimal` being a Lean
function. -/
theorem to_decimal_total (value : Cell) (make_positive : Bool) :
    (to_decimal value make_positive =
      match amountOfCell value with
      | some q => if make_positive then |q| else q
      | none => 0) ∧
    0 ≤ to_decimal value true := by
  constructor
  · cases value with
    | null => rfl
    | nan => rfl
    | dateV d => rfl
    | num q => rfl
    | str s =>
      simp only [to_decimal, amountOfCell]
      by_cases h : pyStrip s = []
      · simp [h]
      · rw [if_neg h, if_neg h]
  · cases value with
    | null => exact le_refl 0
    | nan => exact le_refl 0
    | dateV d => exact le_refl 0
    | num q => simp only [to_decimal, if_true]; exact abs_nonneg q
    | str s =>
      simp only [to_decimal]
      by_cases h : pyStrip s = []
      · rw [if_pos h]
      · rw [if_neg h]
        cases parseAmount s with
        | none => exact le_refl 0
        | some q => simp only [if_true]; exact abs_nonneg q

/-! ### C7: signs of extracted line amounts -/

/-- C7 counterexample: a Fee-section data row whose debit cell holds the
parenthesized negative "(5.00)" produces a transaction line whose amount is
the negative value -5, not a positive fee amount, because the debit is
parsed without `make_positive` (processing_utils.py line 320). -/
theorem fee_line_negative_counterexample :
    lineOfDataRow LineKind.fee (Cell.str "(5.00)".toList) Cell.null =
      some ⟨LineKind.fee, -5⟩ ∧ ¬(0 < (-5 : ℚ)) := by
  have h0 : parseAmountParts (reDollarTrim (cleanAmount "(5.00)".toList)) =
      some (true, 5, 0, 2) := by decide
  have h1 : parseAmount "(5.00)".toList = some (-5) := by
    unfold parseAmount
    rw [h0]
    show some (partsVal (true, 5, 0, 2)) = some (-5)
    unfold partsVal
    norm_num
  have h6 : ¬(pyStrip "(5.00)".toList = []) := by decide
  constructor
  · unfold lineOfDataRow
    simp only [to_decimal]
    rw [if_neg h6, h1]
    norm_num
  · norm_num

/-- C7 amended: inside an active target section, a Contribution-section row
emits the absolute value of its parsed credit and therefore always a
positive amount; a Fee-section row emits its parsed debit with its sign
unchanged, so debits written as parenthesized negatives yield negative fee
amounts; and rows whose selected amount is zero emit no line at all. -/
theorem lineOfDataRow_spec (debitCell creditCell : Cell) :
    lineOfDataRow LineKind.contribution debitCell creditCell =
      (if to_decimal creditCell true = 0 then none
       else some ⟨LineKind.contribution, to_decimal creditCell true⟩) ∧
    lineOfDataRow LineKind.fee debitCell creditCell =
      (if to_decimal debitCell false = 0 then none
       else some ⟨LineKind.fee, to_decimal debitCell false⟩) ∧
    (∀ l, lineOfDataRow LineKind.contribution debitCell creditCell = some l → 0 < l.amount) := by
  refine ⟨rfl, rfl, ?_⟩
  intro l hl
  unfold lineOfDataRow at hl
  by_cases h : to_decimal creditCell true = 0
  · rw [if_pos h] at hl
    exact Option.noConfusion hl
  · rw [if_neg h] at hl
    have hl2 := Option.some.inj hl
    rw [← hl2]
    exact lt_of_le_of_ne (to_decimal_total creditCell true).2 (Ne.symm h)

/-- Witness for `lineOfDataRow_spec` at a concrete credit cell. -/
theorem lineOfDataRow_spec_witness :
    0 < (⟨LineKind.contribution, (100 : ℚ)⟩ : TransLine).amount := by
  apply (lineOfDataRow_spec Cell.null (Cell.num 100)).2.2
  show lineOfDataRow LineKind.contribution Cell.null (Cell.num 100) =
    some ⟨LineKind.contribution, 100⟩
  unfold lineOfDataRow
  simp only [to_decimal]
  norm_num

/-! ### C4: the Aggregator -/

theorem addLineByRef_same (k : List Char) (acc : List TransLine) (l : TransLine) :
    addLineByRef [(k, acc)] k l = [(k, acc ++ [l])] := by
  unfold addLineByRef
  rw [if_pos (by simp)]
  simp

theorem transactions_by_ref_aux (k : List Char) (acc : List TransLine)
    (rows : List ((List Char) × TransLine)) (hk : ∀ p ∈ rows, normalize_jrnl_ref p.1 = k) :
    rows.foldl (fun m rl => addLineByRef m (normalize_jrnl_ref rl.1) rl.2) [(k, acc)] =
      [(k, acc ++ rows.map Prod.snd)] := by
  induction rows generalizing acc with
  | nil => simp
  | cons r rest ih =>
    rw [List.foldl_cons, hk r (List.mem_cons_self r rest), addLineByRef_same,
      ih (acc ++ [r.2]) (fun p hp => hk p (List.mem_cons_of_mem _ hp))]
    simp

theorem transactions_by_ref_single_key (k : List Char)
    (rows : List ((List Char) × TransLine)) (hne : rows ≠ [])
    (hk : ∀ p ∈ rows, normalize_jrnl_ref p.1 = k) :
    transactions_by_ref rows = [(k, rows.map Prod.snd)] := by
  cases rows with
  | nil => exact absurd rfl hne
  | cons r rest =>
    unfold transactions_by_ref
    rw [List.foldl_cons]
    have h0 : addLineByRef [] (normalize_jrnl_ref r.1) r.2 = [(k, [r.2])] := by
      unfold addLineByRef
      rw [if_neg (by simp), hk r (List.mem_cons_self r rest)]
      simp
    rw [h0, transactions_by_ref_aux k [r.2] rest
      (fun p hp => hk p (List.mem_cons_of_mem _ hp))]
    simp

/-- C4: for every multiset of transaction lines sharing one normalized
journal reference, and every input ordering of those lines, the Aggregator
produces exactly one aggregated transaction; its `contribution_total` is the
sum of the Contribution-line amounts, its `fee_total` the sum of the
Fee-line amounts, and its `net_amount` their difference; and the totals do
not depend on the input order. -/
theorem aggregator_totals (k : List Char) (rows : List ((List Char) × TransLine))
    (hne : rows ≠ []) (hk : ∀ p ∈ rows, normalize_jrnl_ref p.1 = k) :
    transactions_by_ref rows = [(k, rows.map Prod.snd)] ∧
    contribution_total (rows.map Prod.snd) =
      (((rows.map Prod.snd).filter (fun l => l.kind = LineKind.contribution)).map
        TransLine.amount).sum ∧
    fee_total (rows.map Prod.snd) =
      (((rows.map Prod.snd).filter (fun l => l.kind = LineKind.fee)).map
        TransLine.amount).sum ∧
    net_amount (rows.map Prod.snd) =
      contribution_total (rows.map Prod.snd) - fee_total (rows.map Prod.snd) ∧
    (∀ rows₂ : List ((List Char) × TransLine), rows.Perm rows₂ →
      transactions_by_ref rows₂ = [(k, rows₂.map Prod.snd)] ∧
      contribution_total (rows₂.map Prod.snd) = contribution_total (rows.map Prod.snd) ∧
      fee_total (rows₂.map Prod.snd) = fee_total (rows.map Prod.snd)) := by
  refine ⟨transactions_by_ref_single_key k rows hne hk, rfl, rfl, rfl, ?_⟩
  intro rows₂ hperm
  have hperm2 : (rows.map Prod.snd).Perm (rows₂.map Prod.snd) := hperm.map Prod.snd
  refine ⟨transactions_by_ref_single_key k rows₂
      (by intro h2; rw [h2] at hperm; exact hne (List.Perm.eq_nil hperm))
      (fun p hp => hk p (hperm.mem_iff.mpr hp)), ?_, ?_⟩
  · unfold contribution_total
    exact ((hperm2.filter _).map TransLine.amount).sum_eq.symm
  · unfold fee_total
    exact ((hperm2.filter _).map TransLine.amount).sum_eq.symm

/-- Witness for `aggregator_totals`: one Contribution line of 100 and one Fee
line of 5 under the shared reference "AB12", also given in the reversed
order. -/
theorem aggregator_totals_witness :
    transactions_by_ref
        [("AB12".toList, ⟨LineKind.contribution, 100⟩), ("AB12".toList, ⟨LineKind.fee, 5⟩)] =
      [("AB12".toList, [⟨LineKind.contribution, 100⟩, ⟨LineKind.fee, 5⟩])] ∧
    contribution_total [⟨LineKind.contribution, 100⟩, ⟨LineKind.fee, 5⟩] = 100 ∧
    fee_total [⟨LineKind.contribution, 100⟩, ⟨LineKind.fee, 5⟩] = 5 ∧
    net_amount [⟨LineKind.contribution, 100⟩, ⟨LineKind.fee, 5⟩] = 95 := by
  have h := aggregator_totals "AB12".toList
    [("AB12".toList, ⟨LineKind.contribution, 100⟩), ("AB12".toList, ⟨LineKind.fee, 5⟩)]
    (by simp)
    (by
      intro p hp
      rcases List.mem_cons.mp hp with h1 | h1
      · rw [h1]; decide
      · rcases List.mem_cons.mp h1 with h2 | h2
        · rw [h2]; decide
        · simp at h2)
  refine ⟨h.1, ?_, ?_, ?_⟩
  · unfold contribution_total
    simp
  · unfold fee_total
    simp
  · unfold net_amount contribution_total fee_total
    simp
    norm_num

/-! ### C3: idempotence of the Merger's insertion pass -/

theorem sheetRefs_appendSheetRef (wb : RefWorkbook) (n r s : List Char) :
    sheetRefs (appendSheetRef wb n r) s =
      if s = n then sheetRefs wb n ++ [r] else sheetRefs wb s := by
  induction wb with
  | nil =>
    by_cases h : s = n
    · subst h
      simp [appendSheetRef, sheetRefs]
    · simp [appendSheetRef, sheetRefs, h, Ne.symm h]
  | cons e t ih =>
    by_cases he : e.1 = n
    · by_cases hs : e.1 = s
      · have hsn : s = n := by rw [← hs, he]
        subst hsn
        simp [appendSheetRef, sheetRefs, he, hs]
      · have hsn : ¬(s = n) := fun h2 => hs (by rw [he, ← h2])
        simp [appendSheetRef, sheetRefs, he, hs, hsn, Ne.symm hsn]
    · by_cases hs : e.1 = s
      · have hsn : ¬(s = n) := fun h2 => he (hs.trans h2)
        simp [appendSheetRef, sheetRefs, he, hs, hsn, Ne.symm hsn]
      · simp [appendSheetRef, sheetRefs, he, hs, ih]

theorem refColFound_appendSheetRef (wb : RefWorkbook) (n r s : List Char) :
    refColFound (appendSheetRef wb n r) s = refColFound wb s := by
  induction wb with
  | nil =>
    by_cases h : s = n
    · subst h
      simp [appendSheetRef, refColFound]
    · simp [appendSheetRef, refColFound, h, Ne.symm h]
  | cons e t ih =>
    by_cases he : e.1 = n
    · by_cases hs : e.1 = s
      · simp [appendSheetRef, refColFound, he, hs]
      · simp [appendSheetRef, refColFound, he, hs]
    · by_cases hs : e.1 = s
      · have hsn : ¬(s = n) := fun h2 => he (hs.trans h2)
        simp [appendSheetRef, refColFound, he, hs, hsn]
      · simp [appendSheetRef, refColFound, he, hs, ih]

theorem refColFound_mergeStep (wb : RefWorkbook) (tx : MergeTx) (s : List Char) :
    refColFound (mergeStep wb tx) s = refColFound wb s := by
  unfold mergeStep
  cases h : dupHit wb tx
  · show refColFound (appendSheetRef wb tx.target tx.raw) s = refColFound wb s
    exact refColFound_appendSheetRef wb tx.target tx.raw s
  · rfl

theorem refColFound_mergeRun (txs : List MergeTx) (wb : RefWorkbook) (s : List Char) :
    refColFound (mergeRun txs wb) s = refColFound wb s := by
  induction txs generalizing wb with
  | nil => rfl
  | cons t ts ih =>
    unfold mergeRun
    rw [List.foldl_cons]
    exact (ih (mergeStep wb t)).trans (refColFound_mergeStep wb t s)

theorem dupHit_mergeStep_self (wb : RefWorkbook) (tx : MergeTx)
    (hcol : refColFound wb tx.target = true) :
    dupHit (mergeStep wb tx) tx = true := by
  unfold mergeStep
  cases h : dupHit wb tx
  · show dupHit (appendSheetRef wb tx.target tx.raw) tx = true
    unfold dupHit
    rw [refColFound_appendSheetRef, hcol, sheetRefs_appendSheetRef, if_pos rfl,
      List.any_append]
    simp
  · show dupHit wb tx = true
    exact h

theorem dupHit_mergeStep_mono (wb : RefWorkbook) (tx tx₂ : MergeTx)
    (h : dupHit wb tx = true) : dupHit (mergeStep wb tx₂) tx = true := by
  unfold mergeStep
  cases h2 : dupHit wb tx₂
  · show dupHit (appendSheetRef wb tx₂.target tx₂.raw) tx = true
    unfold dupHit at h ⊢
    rw [Bool.and_eq_true] at h
    rw [refColFound_appendSheetRef, h.1, sheetRefs_appendSheetRef]
    by_cases hs : tx.target = tx₂.target
    · rw [if_pos hs, ← hs, List.any_append, h.2]
      simp
    · rw [if_neg hs, h.2]
      simp
  · show dupHit wb tx = true
    exact h

theorem dupHit_mergeRun_mono (txs : List MergeTx) (wb : RefWorkbook) (tx : MergeTx)
    (h : dupHit wb tx = true) : dupHit (mergeRun txs wb) tx = true := by
  induction txs generalizing wb with
  | nil => exact h
  | cons t ts ih =>
    unfold mergeRun
    rw [List.foldl_cons]
    exact ih (mergeStep wb t) (dupHit_mergeStep_mono wb tx t h)

theorem dupHit_after_mergeRun (txs : List MergeTx) (wb : RefWorkbook)
    (hcol : ∀ tx ∈ txs, refColFound wb tx.target = true) :
    ∀ tx ∈ txs, dupHit (mergeRun txs wb) tx = true := by
  induction txs generalizing wb with
  | nil => intro tx h; simp at h
  | cons t ts ih =>
    intro tx htx
    unfold mergeRun
    rw [List.foldl_cons]
    rcases List.mem_cons.mp htx with h1 | h1
    · subst h1
      exact dupHit_mergeRun_mono ts (mergeStep wb tx) tx
        (dupHit_mergeStep_self wb tx (hcol tx htx))
    · exact ih (mergeStep wb t)
        (fun tx2 htx2 => (refColFound_mergeStep wb t tx2.target).trans
          (hcol tx2 (List.mem_cons_of_mem _ htx2))) tx h1

theorem mergeRun_of_all_dup (txs : List MergeTx) (wb : RefWorkbook)
    (h : ∀ tx ∈ txs, dupHit wb tx = true) : mergeRun txs wb = wb := by
  induction txs with
  | nil => rfl
  | cons t ts ih =>
    unfold mergeRun
    rw [List.foldl_cons]
    have hstep : mergeStep wb t = wb := by
      unfold mergeStep
      rw [if_pos (h t (List.mem_cons_self t ts))]
    rw [hstep]
    exact ih (fun tx htx => h tx (List.mem_cons_of_mem _ htx))

theorem mergeRunCounts_of_all_dup_aux (txs : List MergeTx) (wb : RefWorkbook)
    (p d : Nat) (h : ∀ tx ∈ txs, dupHit wb tx = true) :
    txs.foldl (fun acc tx =>
      if dupHit acc.1 tx then (acc.1, acc.2.1, acc.2.2 + 1)
      else (appendSheetRef acc.1 tx.target tx.raw, acc.2.1 + 1, acc.2.2)) (wb, p, d) =
      (wb, p, d + txs.length) := by
  induction txs generalizing d with
  | nil => simp
  | cons t ts ih =>
    rw [List.foldl_cons, if_pos (h t (List.mem_cons_self t ts))]
    rw [ih (d + 1) (fun tx htx => h tx (List.mem_cons_of_mem _ htx))]
    simp only [List.length_cons]
    rw [Nat.add_assoc, Nat.add_comm 1 ts.length]

/-- C3 counterexample: a pre-existing target sheet whose header row lacks
the journal-reference column title defeats the duplicate scan
(processing_utils.py lines 418-424: `jrnl_col_idx_target` stays -1, so
`jrnl_exists_in_sheet` stays False): the transaction is appended on the
first run and appended AGAIN on the second run with identical inputs, so the
sheet's row count increases from 1 to 2 — the second run is not an identity
and the transaction is never counted as a sheet-level duplicate. -/
theorem merger_rerun_counterexample :
    mergeRun [⟨"R1".toList, "Club".toList⟩] [("Club".toList, ⟨false, []⟩)] =
      [("Club".toList, ⟨false, ["R1".toList]⟩)] ∧
    mergeRun [⟨"R1".toList, "Club".toList⟩]
        (mergeRun [⟨"R1".toList, "Club".toList⟩] [("Club".toList, ⟨false, []⟩)]) =
      [("Club".toList, ⟨false, ["R1".toList, "R1".toList]⟩)] ∧
    (sheetRefs (mergeRun [⟨"R1".toList, "Club".toList⟩]
        [("Club".toList, ⟨false, []⟩)]) "Club".toList).length = 1 ∧
    (sheetRefs (mergeRun [⟨"R1".toList, "Club".toList⟩]
        (mergeRun [⟨"R1".toList, "Club".toList⟩]
          [("Club".toList, ⟨false, []⟩)])) "Club".toList).length = 2 ∧
    mergeRunCounts [⟨"R1".toList, "Club".toList⟩]
        (mergeRun [⟨"R1".toList, "Club".toList⟩] [("Club".toList, ⟨false, []⟩)]) =
      ([("Club".toList, ⟨false, ["R1".toList, "R1".toList]⟩)], 1, 0) := by
  decide

/-- C3 (amended): provided every transaction's target sheet carries the
journal-reference header column in the starting workbook — which holds for
every sheet the Merger itself creates, but can fail for a pre-existing sheet
— running the insertion pass a second time with the same aggregated
transactions against the workbook produced by the first run changes nothing:
every transaction's normalized reference already appears in its target
sheet's journal-reference column, so each one is counted as a sheet-level
duplicate and skipped (`processed = 0`, `duplicates_sheet = txs.length`),
and no sheet's row count increases. -/
theorem merger_second_run_identity (txs : List MergeTx) (wb : RefWorkbook)
    (hcol : ∀ tx ∈ txs, refColFound wb tx.target = true) :
    mergeRun txs (mergeRun txs wb) = mergeRun txs wb ∧
    (∀ s : List Char, (sheetRefs (mergeRun txs (mergeRun txs wb)) s).length =
      (sheetRefs (mergeRun txs wb) s).length) ∧
    mergeRunCounts txs (mergeRun txs wb) = (mergeRun txs wb, 0, txs.length) := by
  have hdup := dupHit_after_mergeRun txs wb hcol
  have h1 : mergeRun txs (mergeRun txs wb) = mergeRun txs wb :=
    mergeRun_of_all_dup txs (mergeRun txs wb) hdup
  refine ⟨h1, fun s => by rw [h1], ?_⟩
  unfold mergeRunCounts
  rw [mergeRunCounts_of_all_dup_aux txs (mergeRun txs wb) 0 0 hdup]
  simp

/-- Witness for `merger_second_run_identity` at a concrete input: one
transaction against a workbook whose target sheet has the header column. -/
theorem merger_second_run_identity_witness :
    mergeRun [⟨"R1".toList, "Club".toList⟩]
        (mergeRun [⟨"R1".toList, "Club".toList⟩] [("Club".toList, ⟨true, []⟩)]) =
      mergeRun [⟨"R1".toList, "Club".toList⟩] [("Club".toList, ⟨true, []⟩)] ∧
    mergeRunCounts [⟨"R1".toList, "Club".toList⟩]
        (mergeRun [⟨"R1".toList, "Club".toList⟩] [("Club".toList, ⟨true, []⟩)]) =
      (mergeRun [⟨"R1".toList, "Club".toList⟩] [("Club".toList, ⟨true, []⟩)], 0, 1) := by
  have h := merger_second_run_identity [⟨"R1".toList, "Club".toList⟩]
    [("Club".toList, ⟨true, []⟩)] (by decide)
  exact ⟨h.1, h.2.2⟩

/-! ### C2: where reference comparisons are (and are not) normalized -/

/-- C2 counterexample: "ab1" and "AB1" are equal after reference
normalization, and the Merger's duplicate scan accordingly treats them as
the same reference, but the Review Workflow's Needs-Review removal
(sports_clubs.py line 137) compares the raw cell value to the stored raw
journal reference and removes nothing. -/
theorem review_removal_not_normalized :
    normalize_jrnl_ref "ab1".toList = normalize_jrnl_ref "AB1".toList ∧
    mergeStep [(NEEDS_REVIEW_SHEET_NAME, ⟨true, ["ab1".toList]⟩)]
        ⟨"AB1".toList, NEEDS_REVIEW_SHEET_NAME⟩ =
      [(NEEDS_REVIEW_SHEET_NAME, ⟨true, ["ab1".toList]⟩)] ∧
    stepRemoveNR [(NEEDS_REVIEW_SHEET_NAME,
        [[Cell.str JOURNAL_REF_HEADER], [Cell.str "ab1".toList]])] "AB1".toList =
      [(NEEDS_REVIEW_SHEET_NAME,
        [[Cell.str JOURNAL_REF_HEADER], [Cell.str "ab1".toList]])] := by
  refine ⟨by decide, ?_, ?_⟩
  · show mergeStep [(NEEDS_REVIEW_SHEET_NAME, ⟨true, ["ab1".toList]⟩)]
        ⟨"AB1".toList, NEEDS_REVIEW_SHEET_NAME⟩ =
      [(NEEDS_REVIEW_SHEET_NAME, ⟨true, ["ab1".toList]⟩)]
    unfold mergeStep
    rw [if_pos (by decide)]
  · decide

/-- C2 amended: the Merger's duplicate scan of a target sheet and the lookup
against the persistence store's existing-reference set normalize both sides
of every comparison; the Review Workflow's removal from the Needs-Review
sheet instead compares the stored cell value with the entry's raw journal
reference for plain equality, so it removes a row exactly when some data-row
cell equals the raw reference as-is. -/
theorem reference_comparison_sites (wb : RefWorkbook) (tx : MergeTx)
    (dbRefs : List (List Char)) (raw : List Char)
    (rows : List Row) (col : Nat) (jref : List Char) :
    (dupHit wb tx = true ↔
      refColFound wb tx.target = true ∧
      ∃ r ∈ sheetRefs wb tx.target, normalize_jrnl_ref r = normalize_jrnl_ref tx.raw) ∧
    (inExistingDbRefs dbRefs (normalize_jrnl_ref raw) = true ↔
      ∃ r ∈ dbRefs, normalize_jrnl_ref r = normalize_jrnl_ref raw) ∧
    (lastRawMatchIdx rows col jref = none ↔
      ∀ r, 2 ≤ r → cellAt rows r col ≠ Cell.str jref) := by
  refine ⟨?_, ?_, ?_⟩
  · unfold dupHit
    rw [Bool.and_eq_true, List.any_eq_true]
    simp
  · unfold inExistingDbRefs
    rw [List.any_eq_true]
    simp
  · unfold lastRawMatchIdx
    rw [List.getLast?_eq_none_iff, List.filter_eq_nil_iff]
    constructor
    · intro h r hr2
      by_cases hrange : r ≤ rows.length
      · have hmem : r ∈ (List.range rows.length).map (· + 1) := by
          rw [List.mem_map]
          exact ⟨r - 1, by rw [List.mem_range]; omega, by omega⟩
        have := h r hmem
        simp only [decide_eq_true_eq, not_and] at this
        exact this hr2
      · unfold cellAt
        rw [List.get?_eq_none.mpr (by omega)]
        intro hc
        exact Cell.noConfusion hc
    · intro h a _
      simp only [decide_eq_true_eq, not_and]
      intro ha2
      exact h a ha2

/-- Witness for `reference_comparison_sites` at concrete inputs. -/
theorem reference_comparison_sites_witness :
    dupHit [(NEEDS_REVIEW_SHEET_NAME, ⟨true, ["ab1".toList]⟩)]
        ⟨"AB1".toList, NEEDS_REVIEW_SHEET_NAME⟩ = true ∧
    inExistingDbRefs ["ab1".toList] (normalize_jrnl_ref "AB1".toList) = true ∧
    lastRawMatchIdx [[Cell.str JOURNAL_REF_HEADER], [Cell.str "ab1".toList]] 1
        "AB1".toList = none := by
  have h := reference_comparison_sites
    [(NEEDS_REVIEW_SHEET_NAME, ⟨true, ["ab1".toList]⟩)]
    ⟨"AB1".toList, NEEDS_REVIEW_SHEET_NAME⟩ ["ab1".toList] "AB1".toList
    [[Cell.str JOURNAL_REF_HEADER], [Cell.str "ab1".toList]] 1 "AB1".toList
  refine ⟨h.1.mpr ⟨by decide, "ab1".toList, by decide, by decide⟩,
    h.2.1.mpr ⟨"ab1".toList, by decide, by decide⟩,
    h.2.2.mpr ?_⟩
  intro r hr
  match r, hr with
  | 2, _ => decide
  | (n + 3), _ =>
    unfold cellAt
    rw [List.get?_eq_none.mpr (by simp only [List.length_cons, List.length_nil]; omega)]
    intro hc
    exact Cell.noConfusion hc

/-! ### C6: the fiscal-year window of the Summary recalculation -/

theorem fySums_aux (today : PDate) (rows : List ClubSheetRow) (a b : ℚ) :
    rows.foldl (fun acc r =>
      match r.dateCell with
      | some dt =>
        if dateLe (current_fiscal_year_start today) dt then
          (acc.1 + to_decimal r.contribCell false, acc.2 + to_decimal r.chargesCell false)
        else acc
      | none => acc) (a, b) =
      (a + ((rows.filter (inCurrentFY today)).map
        (fun r => to_decimal r.contribCell false)).sum,
       b + ((rows.filter (inCurrentFY today)).map
        (fun r => to_decimal r.chargesCell false)).sum) := by
  induction rows generalizing a b with
  | nil => simp
  | cons r rest ih =>
    rw [List.foldl_cons]
    cases hd : r.dateCell with
    | none =>
      have hf : inCurrentFY today r = false := by unfold inCurrentFY; rw [hd]
      rw [List.filter_cons, hf]
      simp only [if_false, Bool.false_eq_true]
      exact ih a b
    | some dt =>
      cases hle : dateLe (current_fiscal_year_start today) dt with
      | false =>
        have hf : inCurrentFY today r = false := by unfold inCurrentFY; rw [hd]; exact hle
        rw [List.filter_cons, hf]
        simp only [if_false, Bool.false_eq_true]
        rw [hle]
        simp only [if_false, Bool.false_eq_true]
        exact ih a b
      | true =>
        have hf : inCurrentFY today r = true := by unfold inCurrentFY; rw [hd]; exact hle
        rw [List.filter_cons, hf]
        simp only [if_true]
        rw [hle]
        simp only [if_true]
        rw [ih]
        simp only [List.map_cons, List.sum_cons]
        rw [Prod.mk.injEq]
        constructor <;> ring

/-- C6: the Summary recalculation sums a club sheet's contribution and
charges cells over exactly the rows dated on or after the fiscal-year start;
the fiscal-year start is July 1 of the current calendar year when the
current month is at least 7 and of the previous year otherwise; and the
boundary behaves as stated: a row dated June 30 just before the start is
excluded, a row dated July 1 (the start itself) is included. -/
theorem fiscal_year_summation (rows : List ClubSheetRow) (today : PDate) :
    (fySums rows today).1 =
      ((rows.filter (inCurrentFY today)).map
        (fun r => to_decimal r.contribCell false)).sum ∧
    (fySums rows today).2 =
      ((rows.filter (inCurrentFY today)).map
        (fun r => to_decimal r.chargesCell false)).sum ∧
    current_fiscal_year_start today =
      ⟨if 7 ≤ today.m then today.y else today.y - 1, 7, 1⟩ ∧
    dateLe (current_fiscal_year_start today)
      ⟨(current_fiscal_year_start today).y, 7, 1⟩ = true ∧
    dateLe (current_fiscal_year_start today)
      ⟨(current_fiscal_year_start today).y, 6, 30⟩ = false ∧
    (∀ c ch : Cell,
      fySums [⟨some ⟨(current_fiscal_year_start today).y, 6, 30⟩, c, ch⟩] today = (0, 0)) ∧
    (∀ c ch : Cell,
      fySums [⟨some ⟨(current_fiscal_year_start today).y, 7, 1⟩, c, ch⟩] today =
        (to_decimal c false, to_decimal ch false)) := by
  have hstart : current_fiscal_year_start today =
      ⟨if 7 ≤ today.m then today.y else today.y - 1, 7, 1⟩ := rfl
  have h717 : ∀ Y : Nat, dateLe ⟨Y, 7, 1⟩ ⟨Y, 7, 1⟩ = true := by
    intro Y
    show decide (Y < Y ∨ (Y = Y ∧ (7 < 7 ∨ (7 = 7 ∧ 1 ≤ 1)))) = true
    apply decide_eq_true
    omega
  have h630 : ∀ Y : Nat, dateLe ⟨Y, 7, 1⟩ ⟨Y, 6, 30⟩ = false := by
    intro Y
    show decide (Y < Y ∨ (Y = Y ∧ (7 < 6 ∨ (7 = 6 ∧ 1 ≤ 30)))) = false
    apply decide_eq_false
    omega
  have hjul : dateLe (current_fiscal_year_start today)
      ⟨(current_fiscal_year_start today).y, 7, 1⟩ = true :=
    h717 (current_fiscal_year_start today).y
  have hjun : dateLe (current_fiscal_year_start today)
      ⟨(current_fiscal_year_start today).y, 6, 30⟩ = false :=
    h630 (current_fiscal_year_start today).y
  refine ⟨?_, ?_, hstart, hjul, hjun, ?_, ?_⟩
  · unfold fySums
    rw [fySums_aux]
    simp
  · unfold fySums
    rw [fySums_aux]
    simp
  · intro c ch
    unfold fySums
    rw [fySums_aux]
    have hf : inCurrentFY today
        ⟨some ⟨(current_fiscal_year_start today).y, 6, 30⟩, c, ch⟩ = false := by
      unfold inCurrentFY
      exact hjun
    rw [List.filter_cons, hf]
    simp
  · intro c ch
    unfold fySums
    rw [fySums_aux]
    have hf : inCurrentFY today
        ⟨some ⟨(current_fiscal_year_start today).y, 7, 1⟩, c, ch⟩ = true := by
      unfold inCurrentFY
      exact hjul
    rw [List.filter_cons, hf]
    simp

/-! ### C10: the Matcher returns only original club names -/

theorem dictInsert_cases (m : List ClubEntry) (k v : List Char) :
    ∀ e ∈ dictInsert m k v, e ∈ m ∨ e = ⟨k, v⟩ := by
  intro e he
  unfold dictInsert at he
  by_cases h : m.any (fun e => e.norm = k) = true
  · rw [if_pos h] at he
    rw [List.mem_map] at he
    obtain ⟨e', he', heq⟩ := he
    by_cases h2 : e'.norm = k
    · rw [if_pos h2] at heq
      exact Or.inr heq.symm
    · rw [if_neg h2] at heq
      exact Or.inl (heq ▸ he')
  · rw [if_neg h] at he
    rcases List.mem_append.mp he with h1 | h1
    · exact Or.inl h1
    · exact Or.inr (List.mem_singleton.mp h1)

theorem normalizedToOriginal_aux (S : List (List Char)) :
    ∀ (clubs : List (List Char)) (m : List ClubEntry),
      (∀ c ∈ clubs, c ∈ S) → (∀ e ∈ m, e.orig ∈ S) →
      ∀ e ∈ clubs.foldl (fun m c => dictInsert m (normalize_text_for_matching c) c) m,
        e.orig ∈ S := by
  intro clubs
  induction clubs with
  | nil => intro m _ hm; exact hm
  | cons c cs ih =>
    intro m hc hm
    rw [List.foldl_cons]
    apply ih (dictInsert m (normalize_text_for_matching c) c)
      (fun c' hc' => hc c' (List.mem_cons_of_mem _ hc'))
    intro e he
    rcases dictInsert_cases m _ c e he with h1 | h1
    · exact hm e h1
    · rw [h1]
      exact hc c (List.mem_cons_self c cs)

theorem normalizedToOriginal_orig_mem (clubs : List (List Char)) :
    ∀ e ∈ normalizedToOriginal clubs, e.orig ∈ clubs :=
  normalizedToOriginal_aux clubs clubs [] (fun _ hc => hc) (fun _ he => absurd he (by simp))

theorem potentialMatches_orig_mem (nd : List Char) (clubs : List (List Char)) :
    ∀ e ∈ potentialMatches nd clubs, e.orig ∈ clubs := fun e he =>
  normalizedToOriginal_orig_mem clubs e (List.mem_of_mem_filter he)

/-- The Matcher's result is always the original spelling of an entry of the
normalized-to-original dict. -/
theorem find_eq_shape (d : List Char) (clubs : List (List Char)) :
    find_matching_club_sheet d clubs = none ∨
      ∃ e ∈ potentialMatches (normalize_text_for_matching d) clubs,
        find_matching_club_sheet d clubs = some e.orig := by
  unfold find_matching_club_sheet
  split
  · exact Or.inl rfl
  split
  · exact Or.inl rfl
  split
  · exact Or.inl rfl
  · rename_i m heq
    right
    exact ⟨m, by rw [heq]; exact List.mem_singleton.mpr rfl, rfl⟩
  · rename_i x y l heq
    split
    · rename_i m htop
      right
      refine ⟨m, ?_, rfl⟩
      exact List.mem_of_mem_filter (htop ▸ List.mem_singleton.mpr rfl)
    · rename_i htop
      split
      · rename_i m hex
        right
        refine ⟨m, ?_, rfl⟩
        exact List.mem_of_mem_filter (hex ▸ List.mem_singleton.mpr rfl)
      · exact Or.inl rfl

/-- C10: for every designation text and club-name list, the Club Matcher
returns either no match or exactly one element of the given list in its
original spelling; it never fabricates a name or returns a normalized
form. -/
theorem find_matching_club_mem (d : List Char) (clubs : List (List Char)) :
    find_matching_club_sheet d clubs = none ∨
      ∃ c ∈ clubs, find_matching_club_sheet d clubs = some c := by
  rcases find_eq_shape d clubs with h | ⟨e, hmem, h⟩
  · exact Or.inl h
  · exact Or.inr ⟨e.orig, potentialMatches_orig_mem _ clubs e hmem, h⟩

/-! ### C5: the Matcher's resolution rules -/

theorem dictInsert_norm_inv (m : List ClubEntry) (k v : List Char)
    (hk : k = normalize_text_for_matching v)
    (hm : ∀ e ∈ m, e.norm = normalize_text_for_matching e.orig) :
    ∀ e ∈ dictInsert m k v, e.norm = normalize_text_for_matching e.orig := by
  intro e he
  rcases dictInsert_cases m k v e he with h1 | h1
  · exact hm e h1
  · rw [h1]
    exact hk

theorem normalizedToOriginal_norm_inv (clubs : List (List Char)) :
    ∀ e ∈ normalizedToOriginal clubs, e.norm = normalize_text_for_matching e.orig := by
  suffices h : ∀ (cs : List (List Char)) (m : List ClubEntry),
      (∀ e ∈ m, e.norm = normalize_text_for_matching e.orig) →
      ∀ e ∈ cs.foldl (fun m c => dictInsert m (normalize_text_for_matching c) c) m,
        e.norm = normalize_text_for_matching e.orig by
    exact h clubs [] (fun e he => absurd he (by simp))
  intro cs
  induction cs with
  | nil => intro m hm; exact hm
  | cons c cs ih =>
    intro m hm
    rw [List.foldl_cons]
    exact ih _ (dictInsert_norm_inv m _ c rfl hm)

theorem dictInsert_norms (m : List ClubEntry) (k v : List Char) :
    (dictInsert m k v).map ClubEntry.norm =
      if m.any (fun e => e.norm = k) = true then m.map ClubEntry.norm
      else m.map ClubEntry.norm ++ [k] := by
  unfold dictInsert
  by_cases h : m.any (fun e => e.norm = k) = true
  · rw [if_pos h, if_pos h, List.map_map]
    apply List.map_congr_left
    intro e _
    by_cases h2 : e.norm = k
    · simp only [Function.comp_apply, if_pos h2]
      exact h2.symm
    · simp only [Function.comp_apply, if_neg h2]
  · rw [if_neg h, if_neg h, List.map_append]
    rfl

theorem dictInsert_nodup_norm (m : List ClubEntry) (k v : List Char)
    (hm : (m.map ClubEntry.norm).Nodup) :
    ((dictInsert m k v).map ClubEntry.norm).Nodup := by
  rw [dictInsert_norms]
  by_cases h : m.any (fun e => e.norm = k) = true
  · rw [if_pos h]
    exact hm
  · rw [if_neg h]
    rw [List.nodup_append]
    refine ⟨hm, List.nodup_singleton k, ?_⟩
    intro a ha hak
    rw [List.mem_singleton] at hak
    rw [List.mem_map] at ha
    obtain ⟨e, he, hea⟩ := ha
    rw [List.any_eq_true] at h
    exact h ⟨e, he, by rw [decide_eq_true_eq, hea, hak]⟩

theorem normalizedToOriginal_nodup_norm (clubs : List (List Char)) :
    ((normalizedToOriginal clubs).map ClubEntry.norm).Nodup := by
  suffices h : ∀ (cs : List (List Char)) (m : List ClubEntry),
      (m.map ClubEntry.norm).Nodup →
      ((cs.foldl (fun m c => dictInsert m (normalize_text_for_matching c) c) m).map
        ClubEntry.norm).Nodup by
    exact h clubs [] (by simp)
  intro cs
  induction cs with
  | nil => intro m hm; exact hm
  | cons c cs ih =>
    intro m hm
    rw [List.foldl_cons]
    exact ih _ (dictInsert_nodup_norm m _ c hm)

theorem potentialMatches_nodup_norm (nd : List Char) (clubs : List (List Char)) :
    ((potentialMatches nd clubs).map ClubEntry.norm).Nodup :=
  (normalizedToOriginal_nodup_norm clubs).sublist
    ((List.filter_sublist _).map ClubEntry.norm)

theorem potentialMatches_norm_inv (nd : List Char) (clubs : List (List Char)) :
    ∀ e ∈ potentialMatches nd clubs, e.norm = normalize_text_for_matching e.orig :=
  fun e he => normalizedToOriginal_norm_inv clubs e (List.mem_of_mem_filter he)

theorem potentialMatches_wbMatch (nd : List Char) (clubs : List (List Char)) :
    ∀ e ∈ potentialMatches nd clubs, wbMatch e.norm nd = true :=
  fun _ he => by simpa using List.of_mem_filter he

/-! Maximum over `foldl max`. -/

theorem seed_le_foldl_max (l : List Nat) (a : Nat) : a ≤ l.foldl max a := by
  induction l generalizing a with
  | nil => exact le_refl a
  | cons x t ih => exact le_trans (Nat.le_max_left a x) (ih (max a x))

theorem le_foldl_max (l : List Nat) (x : Nat) (hx : x ∈ l) : ∀ a, x ≤ l.foldl max a := by
  induction l with
  | nil => exact absurd hx (by simp)
  | cons y t ih =>
    intro a
    rw [List.foldl_cons]
    rcases List.mem_cons.mp hx with rfl | h
    · exact le_trans (Nat.le_max_right a x) (seed_le_foldl_max t _)
    · exact ih h (max a y)

theorem foldl_max_le (l : List Nat) (b : Nat) (hb : ∀ x ∈ l, x ≤ b) :
    ∀ a, a ≤ b → l.foldl max a ≤ b := by
  induction l with
  | nil => intro a ha; exact ha
  | cons y t ih =>
    intro a ha
    rw [List.foldl_cons]
    exact ih (fun x hx => hb x (List.mem_cons_of_mem _ hx)) (max a y)
      (max_le ha (hb y (List.mem_cons_self y t)))

/-! Word-bounded substring facts. -/

theorem wbMatch_length_le {pat s : List Char} (h : wbMatch pat s = true) :
    pat.length ≤ s.length := by
  unfold wbMatch at h
  rw [List.any_eq_true] at h
  obtain ⟨i, _, hcond⟩ := h
  rw [Bool.and_eq_true, Bool.and_eq_true] at hcond
  obtain ⟨⟨hsub, _⟩, _⟩ := hcond
  unfold sublistAt at hsub
  rw [decide_eq_true_eq] at hsub
  have hlen := congrArg List.length hsub
  rw [List.length_take, List.length_drop] at hlen
  have h2 : pat.length ≤ s.length - i := min_eq_left_iff.mp hlen
  omega

theorem wbMatch_eq_of_length {pat s : List Char} (h : wbMatch pat s = true)
    (hl : pat.length = s.length) : pat = s := by
  unfold wbMatch at h
  rw [List.any_eq_true] at h
  obtain ⟨i, hir, hcond⟩ := h
  rw [List.mem_range] at hir
  rw [Bool.and_eq_true, Bool.and_eq_true] at hcond
  obtain ⟨⟨hsub, _⟩, _⟩ := hcond
  unfold sublistAt at hsub
  rw [decide_eq_true_eq] at hsub
  have hlen := congrArg List.length hsub
  rw [List.length_take, List.length_drop] at hlen
  have h2 : pat.length ≤ s.length - i := min_eq_left_iff.mp hlen
  have hi0 : i = 0 := by omega
  subst hi0
  rw [List.drop_zero] at hsub
  rw [← hsub, hl, List.take_length]

theorem wbMatch_nil (pat : List Char) : wbMatch pat [] = false := by
  unfold wbMatch
  show ([0].any fun i =>
    sublistAt pat [] i && boundaryAt [] i && boundaryAt [] (i + pat.length)) = false
  simp only [List.any_cons, List.any_nil, Bool.or_false]
  have hb : boundaryAt ([] : List Char) 0 = false := by
    unfold boundaryAt wordAt
    simp
  rw [hb]
  simp

theorem potentialMatches_nil (clubs : List (List Char)) :
    potentialMatches [] clubs = [] := by
  unfold potentialMatches
  rw [List.filter_eq_nil_iff]
  intro e _
  rw [wbMatch_nil]
  simp

theorem filter_eq_singleton_of_unique {p : ClubEntry → Bool} {l : List ClubEntry}
    {e : ClubEntry} (hnd : l.Nodup) (he : e ∈ l) (hpe : p e = true)
    (hother : ∀ e' ∈ l, e' ≠ e → p e' = false) : l.filter p = [e] := by
  induction l with
  | nil => exact absurd he (by simp)
  | cons a t ih =>
    rcases List.mem_cons.mp he with rfl | h
    · rw [List.filter_cons, hpe]
      simp only [if_true]
      have ht : t.filter p = [] := by
        rw [List.filter_eq_nil_iff]
        intro x hx
        have hxe : x ≠ e := fun hxe => (List.nodup_cons.mp hnd).1 (hxe ▸ hx)
        rw [hother x (List.mem_cons_of_mem _ hx) hxe]
        simp
      rw [ht]
    · have hae : a ≠ e := fun hae => (List.nodup_cons.mp hnd).1 (hae ▸ h)
      rw [List.filter_cons, hother a (List.mem_cons_self a t) hae]
      simp only [Bool.false_eq_true, if_false]
      exact ih (List.nodup_cons.mp hnd).2 h
        (fun e' he' hne => hother e' (List.mem_cons_of_mem _ he') hne)

/-- Reduction of the Matcher to its multiple-candidate branch. -/
theorem find_third_branch (d : List Char) (clubs : List (List Char)) (x y : ClubEntry)
    (l : List ClubEntry)
    (hpm : potentialMatches (normalize_text_for_matching d) clubs = x :: y :: l) :
    find_matching_club_sheet d clubs =
      match (x :: y :: l).filter
          (fun e => e.norm.length = maxMatchLen (x :: y :: l)) with
      | [m] => some m.orig
      | _ =>
        match (x :: y :: l).filter
            (fun e => normalize_text_for_matching e.orig =
              normalize_text_for_matching d) with
        | [m] => some m.orig
        | _ => none := by
  have hd : d ≠ [] := by
    intro h0
    rw [h0, show normalize_text_for_matching ([] : List Char) = [] from rfl,
      potentialMatches_nil] at hpm
    exact List.noConfusion hpm
  have hnd : normalize_text_for_matching d ≠ [] := by
    intro h1
    rw [h1, potentialMatches_nil] at hpm
    exact List.noConfusion hpm
  unfold find_matching_club_sheet
  rw [if_neg hd, if_neg hnd, hpm]

/-- C5: the Club Matcher's resolution over normalized forms.  Candidates are
the entries of the normalized-name dict whose normalized name occurs as a
whole-word substring of the normalized designation.  The matcher yields no
match for empty or unmatched text, the sole candidate when there is exactly
one, and the strictly longest candidate when one exists among several.  When
the longest normalized length is tied among two or more candidates, no tied
candidate's normalized name can equal the normalized designation (an exact
candidate would be a strict longest), so the "exactly one tied exact
candidate" proviso is never satisfied, and the matcher yields no match. -/
theorem find_matching_club_cases (d : List Char) (clubs : List (List Char)) :
    (normalize_text_for_matching d = [] → find_matching_club_sheet d clubs = none) ∧
    (potentialMatches (normalize_text_for_matching d) clubs = [] →
      find_matching_club_sheet d clubs = none) ∧
    (∀ e, potentialMatches (normalize_text_for_matching d) clubs = [e] →
      find_matching_club_sheet d clubs = some e.orig) ∧
    (∀ e, 2 ≤ (potentialMatches (normalize_text_for_matching d) clubs).length →
      e ∈ potentialMatches (normalize_text_for_matching d) clubs →
      (∀ e' ∈ potentialMatches (normalize_text_for_matching d) clubs,
        e' ≠ e → e'.norm.length < e.norm.length) →
      find_matching_club_sheet d clubs = some e.orig) ∧
    (2 ≤ (potentialMatches (normalize_text_for_matching d) clubs).length →
      (¬ ∃ e ∈ potentialMatches (normalize_text_for_matching d) clubs,
        ∀ e' ∈ potentialMatches (normalize_text_for_matching d) clubs,
          e' ≠ e → e'.norm.length < e.norm.length) →
      ((potentialMatches (normalize_text_for_matching d) clubs).filter
          (fun e => e.norm.length =
            maxMatchLen (potentialMatches (normalize_text_for_matching d) clubs))).filter
        (fun e => e.norm = normalize_text_for_matching d) = [] ∧
      find_matching_club_sheet d clubs = none) := by
  have hnodup : (potentialMatches (normalize_text_for_matching d) clubs).Nodup :=
    (potentialMatches_nodup_norm _ clubs).of_map
  refine ⟨?_, ?_, ?_, ?_, ?_⟩
  · intro h1
    unfold find_matching_club_sheet
    by_cases h0 : d = []
    · rw [if_pos h0]
    · rw [if_neg h0, if_pos h1]
  · intro h2
    unfold find_matching_club_sheet
    by_cases h0 : d = []
    · rw [if_pos h0]
    rw [if_neg h0]
    by_cases h1 : normalize_text_for_matching d = []
    · rw [if_pos h1]
    rw [if_neg h1, h2]
  · intro e h3
    have h0 : d ≠ [] := by
      intro h0
      rw [h0, show normalize_text_for_matching ([] : List Char) = [] from rfl,
        potentialMatches_nil] at h3
      exact List.noConfusion h3
    have h1 : normalize_text_for_matching d ≠ [] := by
      intro h1
      rw [h1, potentialMatches_nil] at h3
      exact List.noConfusion h3
    unfold find_matching_club_sheet
    rw [if_neg h0, if_neg h1, h3]
  · intro e h2 he hmax
    rcases hpm : potentialMatches (normalize_text_for_matching d) clubs with _ | ⟨x, _ | ⟨y, l⟩⟩
    · rw [hpm] at h2; simp at h2
    · rw [hpm] at h2; simp at h2
    rw [hpm] at he hmax hnodup
    have hmaxlen : maxMatchLen (x :: y :: l) = e.norm.length := by
      apply le_antisymm
      · apply foldl_max_le
        · intro v hv
          rw [List.mem_map] at hv
          obtain ⟨e', he', hev⟩ := hv
          rw [← hev]
          by_cases hee : e' = e
          · rw [hee]
          · exact le_of_lt (hmax e' he' hee)
        · exact Nat.zero_le _
      · exact le_foldl_max _ _ (List.mem_map_of_mem (fun z => z.norm.length) he) 0
    have htop : (x :: y :: l).filter
        (fun z => z.norm.length = maxMatchLen (x :: y :: l)) = [e] := by
      apply filter_eq_singleton_of_unique hnodup he
      · rw [decide_eq_true_eq, hmaxlen]
      · intro e' he' hne
        rw [decide_eq_false_iff_not, hmaxlen]
        exact Nat.ne_of_lt (hmax e' he' hne)
    rw [find_third_branch d clubs x y l hpm, htop]
  · intro h2 hnomax
    rcases hpm : potentialMatches (normalize_text_for_matching d) clubs with _ | ⟨x, _ | ⟨y, l⟩⟩
    · rw [hpm] at h2; simp at h2
    · rw [hpm] at h2; simp at h2
    have hinv := potentialMatches_norm_inv (normalize_text_for_matching d) clubs
    have hwb := potentialMatches_wbMatch (normalize_text_for_matching d) clubs
    have hinj := List.inj_on_of_nodup_map (potentialMatches_nodup_norm
      (normalize_text_for_matching d) clubs)
    rw [hpm] at hinv hwb hnomax hinj
    -- no candidate's normalized name equals the normalized designation
    have hnoexact : ∀ e ∈ x :: y :: l, e.norm ≠ normalize_text_for_matching d := by
      intro e he hexact
      apply hnomax
      refine ⟨e, he, ?_⟩
      intro e' he' hne
      have hle : e'.norm.length ≤ e.norm.length := by
        rw [hexact]
        exact wbMatch_length_le (hwb e' he')
      rcases lt_or_eq_of_le hle with hlt | heq
      · exact hlt
      · exfalso
        apply hne
        apply hinj he' he
        rw [wbMatch_eq_of_length (hwb e' he') (by rw [heq, hexact]), hexact]
    have hexfilter : (x :: y :: l).filter
        (fun e => normalize_text_for_matching e.orig =
          normalize_text_for_matching d) = [] := by
      rw [List.filter_eq_nil_iff]
      intro e he
      rw [decide_eq_true_eq, ← hinv e he]
      exact hnoexact e he
    constructor
    · rw [List.filter_eq_nil_iff]
      intro e he
      have he2 : e ∈ x :: y :: l := List.mem_of_mem_filter he
      rw [decide_eq_true_eq]
      exact hnoexact e he2
    · rw [find_third_branch d clubs x y l hpm]
      rcases htf : (x :: y :: l).filter
          (fun e => e.norm.length = maxMatchLen (x :: y :: l)) with _ | ⟨m, _ | ⟨m2, tl⟩⟩
      · rw [htf, hexfilter]
      · exfalso
        apply hnomax
        have hm : m ∈ x :: y :: l :=
          List.mem_of_mem_filter (htf ▸ List.mem_singleton.mpr rfl)
        have hmlen : m.norm.length = maxMatchLen (x :: y :: l) := by
          have h9 := List.of_mem_filter (p := fun e : ClubEntry =>
            decide (e.norm.length = maxMatchLen (x :: y :: l)))
            (htf ▸ List.mem_singleton.mpr rfl)
          rwa [decide_eq_true_eq] at h9
        refine ⟨m, hm, ?_⟩
        intro e' he' hne
        have hle : e'.norm.length ≤ maxMatchLen (x :: y :: l) :=
          le_foldl_max _ _ (List.mem_map_of_mem (fun z => z.norm.length) he') 0
        rcases lt_or_eq_of_le hle with hlt | heq
        · rw [hmlen]
          exact hlt
        · exfalso
          apply hne
          have : e' ∈ (x :: y :: l).filter
              (fun e => e.norm.length = maxMatchLen (x :: y :: l)) := by
            rw [List.mem_filter]
            exact ⟨he', by rw [decide_eq_true_eq]; exact heq⟩
          rw [htf, List.mem_singleton] at this
          exact this
      · rw [htf, hexfilter]

/-- Witness for `find_matching_club_cases`: "Archery Club Fund" against the
clubs ["Archery", "Ice Hockey"] yields exactly one candidate and resolves to
"Archery" in its original spelling. -/
theorem find_matching_club_cases_witness :
    find_matching_club_sheet "Archery Club Fund".toList
      ["Archery".toList, "Ice Hockey".toList] = some "Archery".toList :=
  (find_matching_club_cases "Archery Club Fund".toList
    ["Archery".toList, "Ice Hockey".toList]).2.2.1
    ⟨"archery".toList, "Archery".toList⟩ (by decide)

/-! ### C1: atomicity of the Review Workflow -/

/-- C1 counterexample.  A stored workbook that lacks the Summary-Individual
sheet (but has a well-formed Summary sheet and a matching Needs-Review row):
the review commits the persisted status change, modifies the workbook file
(the Needs-Review row is removed and a club sheet appended) and reports
success, yet step (d) — update-or-append in Summary-Individual — cannot and
does not land, because the resulting workbook still has no Summary-Individual
sheet.  So it is not the case that the five steps either all land or the
workbook is left unmodified with failure reported. -/
theorem review_not_atomic_counterexample :
    ((foundationReviewPost
        [⟨1, TxStatus.needs_review, none, none,
          ⟨⟨2026, 1, 1⟩, "R1".toList, "D".toList, 100, 5, 95⟩⟩]
        [⟨2, "Archery".toList⟩]
        (some [(SUMMARY_SHEET_NAME, [REQUIRED_SUMMARY_HEADERS.map Cell.str]),
               (NEEDS_REVIEW_SHEET_NAME,
                 [[Cell.str JOURNAL_REF_HEADER], [Cell.str "R1".toList]])])
        1 2 ⟨2026, 10, 12⟩).db.map TxRecord.status = [TxStatus.reconciled]) ∧
    ((foundationReviewPost
        [⟨1, TxStatus.needs_review, none, none,
          ⟨⟨2026, 1, 1⟩, "R1".toList, "D".toList, 100, 5, 95⟩⟩]
        [⟨2, "Archery".toList⟩]
        (some [(SUMMARY_SHEET_NAME, [REQUIRED_SUMMARY_HEADERS.map Cell.str]),
               (NEEDS_REVIEW_SHEET_NAME,
                 [[Cell.str JOURNAL_REF_HEADER], [Cell.str "R1".toList]])])
        1 2 ⟨2026, 10, 12⟩).wbUpdated = true) ∧
    ((foundationReviewPost
        [⟨1, TxStatus.needs_review, none, none,
          ⟨⟨2026, 1, 1⟩, "R1".toList, "D".toList, 100, 5, 95⟩⟩]
        [⟨2, "Archery".toList⟩]
        (some [(SUMMARY_SHEET_NAME, [REQUIRED_SUMMARY_HEADERS.map Cell.str]),
               (NEEDS_REVIEW_SHEET_NAME,
                 [[Cell.str JOURNAL_REF_HEADER], [Cell.str "R1".toList]])])
        1 2 ⟨2026, 10, 12⟩).file ≠
      some [(SUMMARY_SHEET_NAME, [REQUIRED_SUMMARY_HEADERS.map Cell.str]),
            (NEEDS_REVIEW_SHEET_NAME,
              [[Cell.str JOURNAL_REF_HEADER], [Cell.str "R1".toList]])]) ∧
    (wbFind
        ((foundationReviewPost
          [⟨1, TxStatus.needs_review, none, none,
            ⟨⟨2026, 1, 1⟩, "R1".toList, "D".toList, 100, 5, 95⟩⟩]
          [⟨2, "Archery".toList⟩]
          (some [(SUMMARY_SHEET_NAME, [REQUIRED_SUMMARY_HEADERS.map Cell.str]),
                 (NEEDS_REVIEW_SHEET_NAME,
                   [[Cell.str JOURNAL_REF_HEADER], [Cell.str "R1".toList]])])
          1 2 ⟨2026, 10, 12⟩).file.getD [])
        SUMMARY_INDIVIDUAL_SHEET_NAME = none) := by
  refine ⟨by decide, by decide, by decide, by decide⟩

/-- C1 amended.  On an invocation with a persisted `needs_review` entry and
an existing club: the persisted status change and club assignment are always
committed; then either the workbook update succeeds — the stored file is
replaced by the workbook with steps (b)-(e) applied, in that order, as
implemented — and success is reported, or it fails (no stored file, or the
Summary sheet or its headers are missing), in which case the stored workbook
file is left unmodified and a failure warning is reported.  Because every
mutation is in-memory until the single save, a failure never leaves a
partially updated file; but success does not imply that all five steps
landed: when the Summary-Individual sheet is absent, step (d) is skipped
with only a logged warning. -/
theorem foundation_review_semantics
    (db : List TxRecord) (clubs : List ClubRec) (file : Option Workbook)
    (txId clubId : Nat) (today : PDate) (t0 : TxRecord) (club : ClubRec)
    (ht : db.find? (fun t => decide (t.id = txId ∧ t.status = TxStatus.needs_review)) =
      some t0)
    (hc : clubs.find? (fun c => c.id = clubId) = some club) :
    (foundationReviewPost db clubs file txId clubId today).db =
      db.map (fun t => if t.id = txId ∧ t.status = TxStatus.needs_review then
        { t0 with status := TxStatus.reconciled, club_id := some club.id,
                  assigned_club_name := some club.name } else t) ∧
    (foundationReviewPost db clubs file txId clubId today).assigned = true ∧
    (file = none →
      (foundationReviewPost db clubs file txId clubId today).file = none ∧
      (foundationReviewPost db clubs file txId clubId today).wbUpdated = false) ∧
    (∀ wb, file = some wb →
      (updateAfterReview wb t0.tx club today = none →
        (foundationReviewPost db clubs file txId clubId today).file = some wb ∧
        (foundationReviewPost db clubs file txId clubId today).wbUpdated = false) ∧
      (∀ wb2, updateAfterReview wb t0.tx club today = some wb2 →
        (foundationReviewPost db clubs file txId clubId today).file = some wb2 ∧
        (foundationReviewPost db clubs file txId clubId today).wbUpdated = true)) ∧
    (∀ wb, updateAfterReview wb t0.tx club today =
      recalcSummary (stepUpdateSI (stepAppendClub
        (stepRemoveNR wb t0.tx.journal_ref) t0.tx club) t0.tx club) today) ∧
    (∀ wb, wbFind wb SUMMARY_INDIVIDUAL_SHEET_NAME = none →
      stepUpdateSI wb t0.tx club = wb) := by
  have hred : foundationReviewPost db clubs file txId clubId today =
      foundationReviewApply db t0 club file txId today := by
    unfold foundationReviewPost
    rw [ht, hc]
  have hfileNone : ∀ db2 tx c,
      foundationReviewFile db2 tx c none today = ⟨db2, none, true, false⟩ :=
    fun _ _ _ => rfl
  have hfileSome : ∀ db2 tx c wb,
      foundationReviewFile db2 tx c (some wb) today =
        match updateAfterReview wb tx c today with
        | some wb2 => (⟨db2, some wb2, true, true⟩ : ReviewOutcome)
        | none => ⟨db2, some wb, true, false⟩ :=
    fun _ _ _ _ => rfl
  refine ⟨?_, ?_, ?_, ?_, fun wb => rfl, ?_⟩
  · rw [hred]
    unfold foundationReviewApply
    cases file with
    | none => rw [hfileNone]
    | some wb =>
      rw [hfileSome]
      cases hu : updateAfterReview wb t0.tx club today with
      | none => rfl
      | some wb2 => rfl
  · rw [hred]
    unfold foundationReviewApply
    cases file with
    | none => rw [hfileNone]
    | some wb =>
      rw [hfileSome]
      cases hu : updateAfterReview wb t0.tx club today with
      | none => rfl
      | some wb2 => rfl
  · intro hf
    subst hf
    rw [hred]
    unfold foundationReviewApply
    rw [hfileNone]
    exact ⟨rfl, rfl⟩
  · intro wb hf
    subst hf
    constructor
    · intro hu
      rw [hred]
      unfold foundationReviewApply
      rw [hfileSome, hu]
      exact ⟨rfl, rfl⟩
    · intro wb2 hu
      rw [hred]
      unfold foundationReviewApply
      rw [hfileSome, hu]
      exact ⟨rfl, rfl⟩
  · intro wb hsi
    unfold stepUpdateSI
    rw [hsi]

/-- Witness for `foundation_review_semantics`: a session without a stored
temp file reports failure and changes no file, while the status commit goes
through. -/
theorem foundation_review_semantics_witness :
    (foundationReviewPost
      [⟨1, TxStatus.needs_review, none, none,
        ⟨⟨2026, 1, 1⟩, "R1".toList, "D".toList, 100, 5, 95⟩⟩]
      [⟨2, "Archery".toList⟩] none 1 2 ⟨2026, 10, 12⟩).file = none ∧
    (foundationReviewPost
      [⟨1, TxStatus.needs_review, none, none,
        ⟨⟨2026, 1, 1⟩, "R1".toList, "D".toList, 100, 5, 95⟩⟩]
      [⟨2, "Archery".toList⟩] none 1 2 ⟨2026, 10, 12⟩).wbUpdated = false :=
  (foundation_review_semantics
    [⟨1, TxStatus.needs_review, none, none,
      ⟨⟨2026, 1, 1⟩, "R1".toList, "D".toList, 100, 5, 95⟩⟩]
    [⟨2, "Archery".toList⟩] none 1 2 ⟨2026, 10, 12⟩
    ⟨1, TxStatus.needs_review, none, none,
      ⟨⟨2026, 1, 1⟩, "R1".toList, "D".toList, 100, 5, 95⟩⟩
    ⟨2, "Archery".toList⟩ (by decide) (by decide)).2.2.1 rfl

end PEF
